import Mathlib

/-!
# MPC.cpp: trajectory model (FG_eval) and controller (MPC::Solve)

Shallow embedding of `src/MPC.cpp`.

* Scalars (`double`, `AD<double>`) are the elements of an arbitrary linearly
  ordered field `α`; rounding is not modelled. The library functions
  `CppAD::cos`, `CppAD::sin`, `CppAD::atan` and the constant `M_PI` are not
  part of the repository and are taken as parameters (`MathFns`).
* The horizon `N` (a global the offsets of lines 34-41 are computed from) is a
  parameter, and the offsets are functions of it.
* `size_t` values are natural numbers. Sums and products are exact; the
  subtractions of the source (`N - 1`, `N - 2`, `7*N - 1`, `... + t - 1`) go
  through `szSub`, which wraps by `2^64` when the subtrahend is larger.
* The `int` loop counters start at a non-negative value and only increase;
  they are natural numbers, and their conversion to `size_t` in comparisons
  and index expressions is the identity.
* Vectors (`CppAD::vector`, `std::vector`) are lists. An element access at an
  index that is not below the length fails (`none`), so a run that returns
  `some _` made only in-range accesses.
* `Dvector v(n)` allocates `n` unspecified scalars: the content is a
  parameter (`junk`).
* Exact sums and products are what the machine computes as long as the
  vectors fit in memory and the counters in an `int`.
* The external call `CppAD::ipopt::solve` is a parameter of `Solve`; the
  option string and the output to `std::cout` are left out.
-/

namespace MPC

/-! ## Machine arithmetic, vectors and loops -/

/-- Subtraction of two `size_t` values: wraps around `2^64` on underflow. -/
def szSub (a b : Nat) : Nat := if b ≤ a then a - b else a + 2 ^ 64 - b

/-- Read `v[i]`; fails when `i` is out of range. -/
def rd {α : Type} (v : List α) (i : Nat) : Option α := v[i]?

/-- Write `v[i] = a`; fails when `i` is out of range. -/
def wr {α : Type} (v : List α) (i : Nat) (a : α) : Option (List α) :=
  if i < v.length then some (v.set i a) else none

/-- Run `body i`, `body (i+1)`, ... for `k` iterations. -/
def forFrom {σ : Type} (body : Nat → σ → Option σ) : Nat → Nat → σ → Option σ
  | 0, _, s => some s
  | k + 1, i, s => (body i s).bind (forFrom body k (i + 1))

/-- The loop `for (int i = start; i < bound; i++) body`. -/
def forLoop {σ : Type} (start bound : Nat) (body : Nat → σ → Option σ) (s : σ) : Option σ :=
  forFrom body (bound - start) start s

/-- Allocation `Dvector v(n)`: `n` scalars of unspecified content. -/
def alloc {α : Type} (junk : Nat → α) (n : Nat) : List α := (List.range n).map junk

/-- External math library used by the source (`CppAD::cos`, `CppAD::sin`,
`CppAD::atan`, `M_PI`). -/
structure MathFns (α : Type) where
  cos : α → α
  sin : α → α
  atan : α → α
  pi : α

/-! ## Global constants (MPC.cpp lines 15-41) -/

section Constants
variable {α : Type} [LinearOrderedField α]

/-- Constant `double dt = 100.0/1000.0`. -/
def dt : α := 100 / 1000
/-- Constant `const double Lf = 2.67`. -/
def Lf : α := 267 / 100
/-- Constant `ref_cte`. -/
def ref_cte : α := 0
/-- Constant `ref_epsi`. -/
def ref_epsi : α := 0
/-- Constant `ref_v`. -/
def ref_v : α := 100

end Constants

/-- Offset `x_address = 0`. -/
def x_address (_N : Nat) : Nat := 0
/-- Offset `y_address = N`. -/
def y_address (N : Nat) : Nat := N
/-- Offset `psi_address = 2*N`. -/
def psi_address (N : Nat) : Nat := 2 * N
/-- Offset `v_address = 3*N`. -/
def v_address (N : Nat) : Nat := 3 * N
/-- Offset `cte_address = 4*N`. -/
def cte_address (N : Nat) : Nat := 4 * N
/-- Offset `epsi_address = 5*N`. -/
def epsi_address (N : Nat) : Nat := 5 * N
/-- Offset `delta_address = 6*N`. -/
def delta_address (N : Nat) : Nat := 6 * N
/-- Offset `a_address = 7*N - 1`. -/
def a_address (N : Nat) : Nat := szSub (7 * N) 1

/-- Local `n_vars = 6*N + 2*(N-1)` of `MPC::Solve`. -/
def n_vars (N : Nat) : Nat := 6 * N + 2 * szSub N 1
/-- Local `n_constraints = 6*N` of `MPC::Solve`. -/
def n_constraints (N : Nat) : Nat := 6 * N

/-- Start offset of block `k` of the decision vector, in the order of lines
34-41: `x, y, psi, v, cte, epsi, delta, a`. -/
def blockStart (N : Nat) (k : Nat) : Nat :=
  match k with
  | 0 => x_address N
  | 1 => y_address N
  | 2 => psi_address N
  | 3 => v_address N
  | 4 => cte_address N
  | 5 => epsi_address N
  | 6 => delta_address N
  | _ => a_address N

/-- Length of block `k`: `N` for the six state blocks (loop bound `N`, line
61), `N - 1` for the two actuator blocks (loop bound `N - 1`, line 68). -/
def blockLen (N : Nat) (k : Nat) : Nat := if k < 6 then N else szSub N 1

/-! ## FG_eval::operator() (MPC.cpp lines 50-128) -/

section FG
variable {α : Type} [LinearOrderedField α]

/-- Statement `fg[k] += e`. -/
def addTo (fg : List α) (k : Nat) (e : α) : Option (List α) := do
  let c ← rd fg k
  wr fg k (c + e)

/-- Body of the loop of lines 61-65. -/
def trackingBody (N : Nat) (vars : List α) (i : Nat) (fg : List α) : Option (List α) := do
  let cte ← rd vars (cte_address N + i)
  let fg ← addTo fg 0 (1000 * (cte - ref_cte) ^ 2)
  let epsi ← rd vars (epsi_address N + i)
  let fg ← addTo fg 0 (1000 * (epsi - ref_epsi) ^ 2)
  let v ← rd vars (v_address N + i)
  addTo fg 0 ((v - ref_v) ^ 2)

/-- Body of the loop of lines 68-71. -/
def actuatorBody (N : Nat) (vars : List α) (i : Nat) (fg : List α) : Option (List α) := do
  let delta ← rd vars (delta_address N + i)
  let fg ← addTo fg 0 (50 * delta ^ 2)
  let a ← rd vars (a_address N + i)
  addTo fg 0 (50 * a ^ 2)

/-- Body of the loop of lines 75-78. -/
def smoothBody (N : Nat) (vars : List α) (i : Nat) (fg : List α) : Option (List α) := do
  let d1 ← rd vars (delta_address N + i + 1)
  let d0 ← rd vars (delta_address N + i)
  let fg ← addTo fg 0 (250000 * (d1 - d0) ^ 2)
  let a1 ← rd vars (a_address N + i + 1)
  let a0 ← rd vars (a_address N + i)
  addTo fg 0 (5000 * (a1 - a0) ^ 2)

/-- Lines 59-78: the cost, accumulated in `fg[0]`. -/
def costPart (N : Nat) (vars : List α) (fg : List α) : Option (List α) := do
  let fg ← wr fg 0 0
  let fg ← forLoop 0 N (trackingBody N vars) fg
  let fg ← forLoop 0 (szSub N 1) (actuatorBody N vars) fg
  forLoop 0 (szSub N 2) (smoothBody N vars) fg

/-- Lines 80-86: the initial constraints. -/
def initPart (N : Nat) (vars : List α) (fg : List α) : Option (List α) := do
  let fg ← wr fg (1 + x_address N) (← rd vars (x_address N))
  let fg ← wr fg (1 + y_address N) (← rd vars (y_address N))
  let fg ← wr fg (1 + psi_address N) (← rd vars (psi_address N))
  let fg ← wr fg (1 + v_address N) (← rd vars (v_address N))
  let fg ← wr fg (1 + cte_address N) (← rd vars (cte_address N))
  wr fg (1 + epsi_address N) (← rd vars (epsi_address N))

/-- The six state scalars of one time step. -/
structure StateAt (α : Type) where
  x : α
  y : α
  psi : α
  v : α
  cte : α
  epsi : α

/-- Lines 90-95: the state at step `t` (`x1 .. epsi1`). -/
def readState1 (N : Nat) (vars : List α) (t : Nat) : Option (StateAt α) := do
  let x1 ← rd vars (x_address N + t)
  let y1 ← rd vars (y_address N + t)
  let psi1 ← rd vars (psi_address N + t)
  let v1 ← rd vars (v_address N + t)
  let cte1 ← rd vars (cte_address N + t)
  let epsi1 ← rd vars (epsi_address N + t)
  pure ⟨x1, y1, psi1, v1, cte1, epsi1⟩

/-- Lines 98-103: the state at step `t - 1` (`x0 .. epsi0`). -/
def readState0 (N : Nat) (vars : List α) (t : Nat) : Option (StateAt α) := do
  let x0 ← rd vars (szSub (x_address N + t) 1)
  let y0 ← rd vars (szSub (y_address N + t) 1)
  let psi0 ← rd vars (szSub (psi_address N + t) 1)
  let v0 ← rd vars (szSub (v_address N + t) 1)
  let cte0 ← rd vars (szSub (cte_address N + t) 1)
  let epsi0 ← rd vars (szSub (epsi_address N + t) 1)
  pure ⟨x0, y0, psi0, v0, cte0, epsi0⟩

/-- Line 109: `f0`, from the coefficients already read. -/
def f0Val (c0 c1 c2 c3 x0 : α) : α := c0 + c1 * x0 + c2 * x0 ^ 2 + c3 * x0 ^ 3

/-- Line 110: `psides0`, from the coefficients already read. -/
def psides0Val (m : MathFns α) (c1 c2 c3 x0 : α) : α :=
  m.atan (c1 + 2 * c2 * x0 + 3 * c3 * x0 ^ 2)

/-- Lines 109-110: `f0` and `psides0` (reads `coeffs[0..3]`). -/
def refVals (m : MathFns α) (coeffs : List α) (x0 : α) : Option (α × α) := do
  let c0 ← rd coeffs 0
  let c1 ← rd coeffs 1
  let c2 ← rd coeffs 2
  let c3 ← rd coeffs 3
  pure (f0Val c0 c1 c2 c3 x0, psides0Val m c1 c2 c3 x0)

/-- Right-hand side of line 121. -/
def resX (m : MathFns α) (s1 s0 : StateAt α) : α := s1.x - (s0.x + s0.v * m.cos s0.psi * dt)
/-- Right-hand side of line 122. -/
def resY (m : MathFns α) (s1 s0 : StateAt α) : α := s1.y - (s0.y + s0.v * m.sin s0.psi * dt)
/-- Right-hand side of line 123. -/
def resPsi (s1 s0 : StateAt α) (delta0 : α) : α :=
  s1.psi - (s0.psi - s0.v / Lf * delta0 * dt)
/-- Right-hand side of line 124. -/
def resV (s1 s0 : StateAt α) (a0 : α) : α := s1.v - (s0.v + a0 * dt)
/-- Right-hand side of line 125. -/
def resCte (m : MathFns α) (s1 s0 : StateAt α) (f0 : α) : α :=
  s1.cte - ((f0 - s0.y) + (s0.v * m.sin s0.epsi * dt))
/-- Right-hand side of line 126. -/
def resEpsi (s1 s0 : StateAt α) (psides0 delta0 : α) : α :=
  s1.epsi - ((s0.psi - psides0) - s0.v / Lf * delta0 * dt)

/-- Lines 121-126: the six assignments to `fg`. -/
def writeRes (m : MathFns α) (N t : Nat) (s1 s0 : StateAt α) (delta0 a0 f0 psides0 : α)
    (fg : List α) : Option (List α) := do
  let fg ← wr fg (1 + x_address N + t) (resX m s1 s0)
  let fg ← wr fg (1 + y_address N + t) (resY m s1 s0)
  let fg ← wr fg (1 + psi_address N + t) (resPsi s1 s0 delta0)
  let fg ← wr fg (1 + v_address N + t) (resV s1 s0 a0)
  let fg ← wr fg (1 + cte_address N + t) (resCte m s1 s0 f0)
  wr fg (1 + epsi_address N + t) (resEpsi s1 s0 psides0 delta0)

/-- Body of the loop of lines 88-127, in the order of the source: the reads of
step `t`, the reads of step `t - 1`, the two actuators, the reference values,
the six writes. -/
def dynamicsBody (m : MathFns α) (coeffs : List α) (N : Nat) (vars : List α) (t : Nat)
    (fg : List α) : Option (List α) := do
  let s1 ← readState1 N vars t
  let s0 ← readState0 N vars t
  let delta0 ← rd vars (szSub (delta_address N + t) 1)
  let a0 ← rd vars (szSub (a_address N + t) 1)
  let r ← refVals m coeffs s0.x
  writeRes m N t s1 s0 delta0 a0 r.1 r.2 fg

/-- Function `FG_eval::operator()(fg, vars)`; returns the updated `fg`. -/
def FG_eval (m : MathFns α) (coeffs : List α) (N : Nat) (fg vars : List α) :
    Option (List α) := do
  let fg ← costPart N vars fg
  let fg ← initPart N vars fg
  forLoop 1 N (dynamicsBody m coeffs N vars) fg

end FG

/-! ## MPC::Solve (MPC.cpp lines 136-265) -/

/-- Status of the external solver's result. The solver's headers are not part
of the repository; the values are the ones the spec lists (§6), and
`MPC::Solve` only compares the status with `success`. -/
inductive Status where
  | success
  | infeasible
  | timeout
  | error
  deriving DecidableEq, Repr

/-- Result of the external solver (`CppAD::ipopt::solve_result<Dvector>`): the
fields read by `MPC::Solve`. -/
structure SolveResult (α : Type) where
  status : Status
  x : List α
  obj_value : α

/-- Arguments handed to `CppAD::ipopt::solve` at lines 237-239. -/
structure SolveArgs (α : Type) where
  xi : List α
  xl : List α
  xu : List α
  gl : List α
  gu : List α
  fg_eval : List α → List α → Option (List α)

section Solve
variable {α : Type} [LinearOrderedField α]

/-- The vector `x` respects the per-variable bounds: `xl[j] ≤ x[j] ≤ xu[j]` for
every entry of `x` (what the external solver promises for its result). -/
def withinVarBounds (xl xu x : List α) : Prop :=
  ∀ j, j < x.length → xl.getD j 0 ≤ x.getD j 0 ∧ x.getD j 0 ≤ xu.getD j 0

instance (xl xu x : List α) : Decidable (withinVarBounds xl xu x) :=
  Nat.decidableBallLT _ _

/-- The constraint values respect the constraint bounds:
`gl[k] ≤ fg[1+k] ≤ gu[k]` for every entry of `gl`, where `fg[1+k]` is the
`k`-th constraint value left by `FG_eval::operator()`. -/
def withinConstraintBounds (gl gu fg : List α) : Prop :=
  ∀ k, k < gl.length → gl.getD k 0 ≤ fg.getD (1 + k) 0 ∧ fg.getD (1 + k) 0 ≤ gu.getD k 0

instance (gl gu fg : List α) : Decidable (withinConstraintBounds gl gu fg) :=
  Nat.decidableBallLT _ _

/-- Lines 140-145: the six components of `state`. -/
def readInput (state : List α) : Option (StateAt α) := do
  let x ← rd state 0
  let y ← rd state 1
  let psi ← rd state 2
  let v ← rd state 3
  let cte ← rd state 4
  let epsi ← rd state 5
  pure ⟨x, y, psi, v, cte, epsi⟩

/-- Lines 161-164: the initial value of the independent variables. -/
def initVars (junk : Nat → α) (N : Nat) : Option (List α) :=
  forLoop 0 (n_vars N) (fun i vars => wr vars i 0) (alloc junk (n_vars N))

/-- Body of the three loops of lines 174-190: one entry of each bound. -/
def boundBody (lo hi : α) (i : Nat) (b : List α × List α) : Option (List α × List α) := do
  let lb ← wr b.1 i lo
  let ub ← wr b.2 i hi
  pure (lb, ub)

/-- Lines 166-190: `vars_lowerbound` and `vars_upperbound`. -/
def varBounds (m : MathFns α) (junkL junkU : Nat → α) (N : Nat) :
    Option (List α × List α) := do
  let b := (alloc junkL (n_vars N), alloc junkU (n_vars N))
  let b ← forLoop 0 (delta_address N) (boundBody (-(10 ^ 19)) (10 ^ 19)) b
  let b ← forLoop (delta_address N) (a_address N)
    (boundBody (-25 * m.pi / 180) (25 * m.pi / 180)) b
  forLoop (a_address N) (n_vars N) (boundBody (-1) 1) b

/-- Lines 201-206 and lines 208-213: one bound vector pinned to the state. -/
def pinState (N : Nat) (s : StateAt α) (c : List α) : Option (List α) := do
  let c ← wr c (x_address N) s.x
  let c ← wr c (y_address N) s.y
  let c ← wr c (psi_address N) s.psi
  let c ← wr c (v_address N) s.v
  let c ← wr c (cte_address N) s.cte
  wr c (epsi_address N) s.epsi

/-- Lines 194-213: `constraints_lowerbound` and `constraints_upperbound`. -/
def constraintBounds (junkL junkU : Nat → α) (N : Nat) (s : StateAt α) :
    Option (List α × List α) := do
  let b := (alloc junkL (n_constraints N), alloc junkU (n_constraints N))
  let b ← forLoop 0 (n_constraints N) (boundBody 0 0) b
  let lb ← pinState N s b.1
  let ub ← pinState N s b.2
  pure (lb, ub)

/-- Lines 140-216: everything `MPC::Solve` builds before it calls the solver.
`junk k` is the content of the `k`-th allocated vector. -/
def Solve_args (m : MathFns α) (junk : Nat → Nat → α) (N : Nat) (state coeffs : List α) :
    Option (SolveArgs α) := do
  let s ← readInput state
  let vars ← initVars (junk 0) N
  let vb ← varBounds m (junk 1) (junk 2) N
  let cb ← constraintBounds (junk 3) (junk 4) N s
  pure ⟨vars, vb.1, vb.2, cb.1, cb.2, fun fg z => FG_eval m coeffs N fg z⟩

/-- Body of the loop of lines 260-263. -/
def previewBody (N : Nat) (x : List α) (i : Nat) (result : List α) : Option (List α) := do
  let px ← rd x (x_address N + i + 1)
  let result := result ++ [px]
  let py ← rd x (y_address N + i + 1)
  pure (result ++ [py])

/-- Lines 241-264: what `MPC::Solve` does with the solver's result. The local
`ok` and `cost` are computed as in the source; `cost` goes to `std::cout`
only, which is not part of the returned value. -/
def Solve_result (N : Nat) (solution : SolveResult α) : Option (List α) := do
  let ok := true
  let _ok := ok && decide (solution.status = Status.success)
  let _cost := solution.obj_value
  let result : List α := []
  let steer ← rd solution.x (delta_address N)
  let result := result ++ [steer]
  let throttle ← rd solution.x (a_address N)
  let result := result ++ [throttle]
  forLoop 0 (szSub N 2) (previewBody N solution.x) result

/-- Function `MPC::Solve(state, coeffs)`, with the external solver as a
parameter. -/
def Solve (m : MathFns α) (solver : SolveArgs α → SolveResult α) (junk : Nat → Nat → α)
    (N : Nat) (state coeffs : List α) : Option (List α) := do
  let args ← Solve_args m junk N state coeffs
  Solve_result N (solver args)

/-- The decision vector `z` satisfies the constraint bounds `MPC::Solve`
builds for `state`: the constraint values that the functor handed to the solver
computes for `z` (in the work vector `fg`) lie within `gl`, `gu`. -/
@[irreducible]
def satisfiesConstraints (m : MathFns α) (junk : Nat → Nat → α) (N : Nat)
    (state coeffs fg z : List α) : Prop :=
  match Solve_args m junk N state coeffs with
  | none => False
  | some args =>
    match args.fg_eval fg z with
    | none => False
    | some fg' => withinConstraintBounds args.gl args.gu fg'

/-- The cost of the decision vector `z`: the entry `fg[0]` left by
`FG_eval::operator()`. -/
def costOf (m : MathFns α) (coeffs : List α) (N : Nat) (fg z : List α) : Option α :=
  (FG_eval m coeffs N fg z).bind (fun fg' => rd fg' 0)

/-- The decision vector `z` satisfies the constraints for `state` and no vector
of the same length that satisfies them has a smaller cost. -/
def isMinimizer (m : MathFns α) (junk : Nat → Nat → α) (N : Nat)
    (state coeffs fg z : List α) : Prop :=
  z.length = n_vars N ∧ satisfiesConstraints m junk N state coeffs fg z ∧
    ∀ w, w.length = n_vars N → satisfiesConstraints m junk N state coeffs fg w →
      ∀ cz cw, costOf m coeffs N fg z = some cz → costOf m coeffs N fg w = some cw → cz ≤ cw

/-- The decision vector of the zero-effort check (spec §8): `x_t = 100 * 0.1 * t`,
`v_t = 100`, every other state entry and every actuator entry 0. -/
def zeroEffortVec (N : Nat) : List α :=
  (List.range (n_vars N)).map fun i =>
    if i < y_address N then 100 * (1 / 10) * ((i - x_address N : Nat) : α)
    else if v_address N ≤ i ∧ i < cte_address N then 100
    else 0

end Solve

/-! ## Closed forms of what the code computes (used to state the run lemmas) -/

section ClosedForms
variable {α : Type} [LinearOrderedField α]

/-- The value left in `fg[0]` by lines 59-78, as the source accumulates it. -/
def costValue (N : Nat) (z : List α) : α :=
  0 + (∑ i ∈ Finset.range N,
        (1000 * (z.getD (cte_address N + i) 0 - ref_cte) ^ 2
          + 1000 * (z.getD (epsi_address N + i) 0 - ref_epsi) ^ 2
          + (z.getD (v_address N + i) 0 - ref_v) ^ 2))
    + (∑ i ∈ Finset.range (N - 1),
        (50 * z.getD (delta_address N + i) 0 ^ 2 + 50 * z.getD (a_address N + i) 0 ^ 2))
    + (∑ i ∈ Finset.range (N - 2),
        (250000 * (z.getD (delta_address N + i + 1) 0 - z.getD (delta_address N + i) 0) ^ 2
          + 5000 * (z.getD (a_address N + i + 1) 0 - z.getD (a_address N + i) 0) ^ 2))

/-- The six state entries of `z` at step `t`. -/
def stateAt (N : Nat) (z : List α) (t : Nat) : StateAt α :=
  ⟨z.getD (x_address N + t) 0, z.getD (y_address N + t) 0, z.getD (psi_address N + t) 0,
   z.getD (v_address N + t) 0, z.getD (cte_address N + t) 0, z.getD (epsi_address N + t) 0⟩

/-- The value written to `fg[1 + b*N + t]` (block `b`, step `t`) by lines 80-127. -/
def gEntry (m : MathFns α) (c0 c1 c2 c3 : α) (N : Nat) (z : List α) (b t : Nat) : α :=
  if t = 0 then z.getD (b * N) 0
  else
    match b with
    | 0 => resX m (stateAt N z t) (stateAt N z (t - 1))
    | 1 => resY m (stateAt N z t) (stateAt N z (t - 1))
    | 2 => resPsi (stateAt N z t) (stateAt N z (t - 1)) (z.getD (delta_address N + (t - 1)) 0)
    | 3 => resV (stateAt N z t) (stateAt N z (t - 1)) (z.getD (a_address N + (t - 1)) 0)
    | 4 => resCte m (stateAt N z t) (stateAt N z (t - 1))
        (f0Val c0 c1 c2 c3 (z.getD (x_address N + (t - 1)) 0))
    | _ => resEpsi (stateAt N z t) (stateAt N z (t - 1))
        (psides0Val m c1 c2 c3 (z.getD (x_address N + (t - 1)) 0))
        (z.getD (delta_address N + (t - 1)) 0)

/-- Component `b` of a state, in the block order `x, y, psi, v, cte, epsi`. -/
def StateAt.comp (s : StateAt α) (b : Nat) : α :=
  match b with
  | 0 => s.x
  | 1 => s.y
  | 2 => s.psi
  | 3 => s.v
  | 4 => s.cte
  | _ => s.epsi

end ClosedForms

section SixWritesDef
variable {α : Type}

/-- Six writes, one per state block, at offset `o` and step `t`, as a function
of the old vector. -/
def set6 (o N t : Nat) (v : Nat → α) (fg : List α) : List α :=
  (((((fg.set (o + x_address N + t) (v 0)).set (o + y_address N + t) (v 1)).set
    (o + psi_address N + t) (v 2)).set (o + v_address N + t) (v 3)).set
    (o + cte_address N + t) (v 4)).set (o + epsi_address N + t) (v 5)

end SixWritesDef

/-! ## Basic facts about the machine model -/

theorem szSub_of_le {a b : Nat} (h : b ≤ a) : szSub a b = a - b := by
  simp [szSub, h]

theorem rd_of_lt {α : Type} [Zero α] {v : List α} {i : Nat} (h : i < v.length) :
    rd v i = some (v.getD i 0) := by
  simp [rd, List.getD_eq_getElem?_getD, List.getElem?_eq_getElem h]

theorem rd_eq_none_iff {α : Type} (v : List α) (i : Nat) : rd v i = none ↔ v.length ≤ i := by
  simp [rd]

theorem wr_of_lt {α : Type} {v : List α} {i : Nat} (a : α) (h : i < v.length) :
    wr v i a = some (v.set i a) := by
  simp [wr, h]

theorem wr_eq_none_iff {α : Type} (v : List α) (i : Nat) (a : α) :
    wr v i a = none ↔ v.length ≤ i := by
  simp [wr]

theorem getD_eq_of_getElem? {α : Type} [Zero α] {v : List α} {i : Nat} {a : α}
    (h : v[i]? = some a) : v.getD i 0 = a := by
  simp [List.getD_eq_getElem?_getD, h]

theorem getElem?_eq_some_getD {α : Type} [Zero α] {v : List α} {i : Nat} (h : i < v.length) :
    v[i]? = some (v.getD i 0) := by
  simp [List.getD_eq_getElem?_getD, List.getElem?_eq_getElem h]

/-- One iteration of a loop that has `k + 1` iterations left. -/
theorem forFrom_succ {σ : Type} (body : Nat → σ → Option σ) (k i : Nat) (s : σ) :
    forFrom body (k + 1) i s = (body i s).bind (forFrom body k (i + 1)) := rfl

/-- Loop rule: an invariant kept by every iteration holds at the end, and the
loop does not fail. -/
theorem forFrom_inv {σ : Type} (Inv : Nat → σ → Prop) (body : Nat → σ → Option σ) :
    ∀ (k start : Nat) (s : σ), Inv start s →
      (∀ i s, start ≤ i → i < start + k → Inv i s → ∃ s', body i s = some s' ∧ Inv (i + 1) s') →
      ∃ s', forFrom body k start s = some s' ∧ Inv (start + k) s' := by
  intro k
  induction k with
  | zero =>
    intro start s h0 _
    exact ⟨s, rfl, by simpa using h0⟩
  | succ k ih =>
    intro start s h0 hstep
    obtain ⟨s1, hb, h1⟩ := hstep start s (le_refl _) (by omega) h0
    obtain ⟨s2, hf, h2⟩ := ih (start + 1) s1 h1
      (fun i t hi hlt hinv => hstep i t (by omega) (by omega) hinv)
    refine ⟨s2, ?_, ?_⟩
    · simp [forFrom, hb, hf]
    · have : start + (k + 1) = start + 1 + k := by omega
      rw [this]; exact h2

theorem forLoop_inv {σ : Type} (Inv : Nat → σ → Prop) (body : Nat → σ → Option σ)
    (start bound : Nat) (s : σ) (hle : start ≤ bound) (h0 : Inv start s)
    (hstep : ∀ i s, start ≤ i → i < bound → Inv i s →
      ∃ s', body i s = some s' ∧ Inv (i + 1) s') :
    ∃ s', forLoop start bound body s = some s' ∧ Inv bound s' := by
  have h := forFrom_inv Inv body (bound - start) start s h0
    (fun i t hi hlt hinv => hstep i t hi (by omega) hinv)
  have e : start + (bound - start) = bound := by omega
  rw [e] at h
  exact h

section CostLemmas
variable {α : Type} [LinearOrderedField α]

theorem addTo_cons (c e : α) (g : List α) : addTo (c :: g) 0 e = some ((c + e) :: g) := by
  simp [addTo, rd, wr]

/-- A loop that adds `term i` to `fg[0]` at iteration `i` leaves the sum there. -/
theorem forLoop_sum (body : Nat → List α → Option (List α)) (term : Nat → α) (n : Nat)
    (c : α) (g : List α)
    (hbody : ∀ i a, i < n → body i (a :: g) = some ((a + term i) :: g)) :
    forLoop 0 n body (c :: g) = some ((c + ∑ j ∈ Finset.range n, term j) :: g) := by
  obtain ⟨s, hs, hinv⟩ := forLoop_inv
    (fun i fg => fg = (c + ∑ j ∈ Finset.range i, term j) :: g) body 0 n (c :: g)
    (Nat.zero_le _) (by simp)
    (fun i s _ hlt hinv => by
      subst hinv
      refine ⟨_, hbody i _ hlt, ?_⟩
      show _ = (c + ∑ j ∈ Finset.range (i + 1), term j) :: g
      rw [Finset.sum_range_succ, add_assoc])
  rw [hs, hinv]

theorem n_vars_eq {N : Nat} (hN : 1 ≤ N) : n_vars N = 8 * N - 2 := by
  simp only [n_vars, szSub_of_le hN]; omega

theorem a_address_eq {N : Nat} (hN : 1 ≤ N) : a_address N = 7 * N - 1 := by
  simp only [a_address]; rw [szSub_of_le (by omega)]

theorem trackingBody_run {N : Nat} {z : List α} (hN : 1 ≤ N) (hz : z.length = n_vars N)
    (i : Nat) (hi : i < N) (a : α) (g : List α) :
    trackingBody N z i (a :: g) = some ((a +
      (1000 * (z.getD (cte_address N + i) 0 - ref_cte) ^ 2
        + 1000 * (z.getD (epsi_address N + i) 0 - ref_epsi) ^ 2
        + (z.getD (v_address N + i) 0 - ref_v) ^ 2)) :: g) := by
  rw [n_vars_eq hN] at hz
  have h1 : cte_address N + i < z.length := by simp only [cte_address]; omega
  have h2 : epsi_address N + i < z.length := by simp only [epsi_address]; omega
  have h3 : v_address N + i < z.length := by simp only [v_address]; omega
  simp only [trackingBody, rd_of_lt h1, rd_of_lt h2, rd_of_lt h3, addTo_cons,
    Option.bind_eq_bind, Option.some_bind, add_assoc]

theorem actuatorBody_run {N : Nat} {z : List α} (hN : 1 ≤ N) (hz : z.length = n_vars N)
    (i : Nat) (hi : i < N - 1) (a : α) (g : List α) :
    actuatorBody N z i (a :: g) = some ((a +
      (50 * z.getD (delta_address N + i) 0 ^ 2 + 50 * z.getD (a_address N + i) 0 ^ 2)) :: g) := by
  rw [n_vars_eq hN] at hz
  have h1 : delta_address N + i < z.length := by simp only [delta_address]; omega
  have h2 : a_address N + i < z.length := by rw [a_address_eq hN]; omega
  simp only [actuatorBody, rd_of_lt h1, rd_of_lt h2, addTo_cons,
    Option.bind_eq_bind, Option.some_bind]
  rw [add_assoc]

theorem smoothBody_run {N : Nat} {z : List α} (hN : 1 ≤ N) (hz : z.length = n_vars N)
    (i : Nat) (hi : i < N - 2) (a : α) (g : List α) :
    smoothBody N z i (a :: g) = some ((a +
      (250000 * (z.getD (delta_address N + i + 1) 0 - z.getD (delta_address N + i) 0) ^ 2
        + 5000 * (z.getD (a_address N + i + 1) 0 - z.getD (a_address N + i) 0) ^ 2)) :: g) := by
  rw [n_vars_eq hN] at hz
  have h1 : delta_address N + i + 1 < z.length := by simp only [delta_address]; omega
  have h2 : delta_address N + i < z.length := by simp only [delta_address]; omega
  have h3 : a_address N + i + 1 < z.length := by rw [a_address_eq hN]; omega
  have h4 : a_address N + i < z.length := by rw [a_address_eq hN]; omega
  simp only [smoothBody, rd_of_lt h1, rd_of_lt h2, rd_of_lt h3, rd_of_lt h4, addTo_cons,
    Option.bind_eq_bind, Option.some_bind]
  rw [add_assoc]

theorem costPart_run {N : Nat} {z : List α} (hN : 2 ≤ N) (hz : z.length = n_vars N)
    (c : α) (g : List α) :
    costPart N z (c :: g) = some (costValue N z :: g) := by
  have hN1 : 1 ≤ N := by omega
  have e0 : wr (c :: g) 0 (0 : α) = some (0 :: g) := by simp [wr]
  have e1 := forLoop_sum (trackingBody N z) _ N (0 : α) g
    (fun i a hi => trackingBody_run hN1 hz i hi a g)
  have e2 := fun c => forLoop_sum (actuatorBody N z) _ (N - 1) (c : α) g
    (fun i a hi => actuatorBody_run hN1 hz i hi a g)
  have e3 := fun c => forLoop_sum (smoothBody N z) _ (N - 2) (c : α) g
    (fun i a hi => smoothBody_run hN1 hz i hi a g)
  simp only [costPart, e0, szSub_of_le hN1, szSub_of_le hN, Option.bind_eq_bind,
    Option.some_bind, e1, e2, e3, costValue]

end CostLemmas

section SixWrites
variable {α : Type}

theorem set6_length (o N t : Nat) (v : Nat → α) (fg : List α) :
    (set6 o N t v fg).length = fg.length := by
  simp [set6]

theorem set6_hit {o N t : Nat} (v : Nat → α) {fg : List α} (hfg : fg.length = o + 6 * N)
    (ht : t < N) (b : Nat) (hb : b < 6) :
    (set6 o N t v fg)[o + b * N + t]? = some (v b) := by
  interval_cases b <;>
    simp only [set6, x_address, y_address, psi_address, v_address, cte_address, epsi_address,
      List.getElem?_set, List.length_set] <;>
    split_ifs <;> first | rfl | omega

theorem set6_miss {o N t : Nat} (v : Nat → α) (fg : List α) (j : Nat)
    (hj : ∀ b, b < 6 → j ≠ o + b * N + t) :
    (set6 o N t v fg)[j]? = fg[j]? := by
  have h0 := hj 0 (by omega)
  have h1 := hj 1 (by omega)
  have h2 := hj 2 (by omega)
  have h3 := hj 3 (by omega)
  have h4 := hj 4 (by omega)
  have h5 := hj 5 (by omega)
  simp only [set6, x_address, y_address, psi_address, v_address, cte_address, epsi_address,
    List.getElem?_set, List.length_set]
  split_ifs <;> first | rfl | omega

end SixWrites

section ConstraintLemmas
variable {α : Type} [LinearOrderedField α]

theorem szSub_add_one (a : Nat) {t : Nat} (ht : 1 ≤ t) : szSub (a + t) 1 = a + (t - 1) := by
  rw [szSub_of_le (by omega)]; omega

theorem readState1_run {N : Nat} {z : List α} (hN : 1 ≤ N) (hz : z.length = n_vars N)
    (t : Nat) (ht : t < N) : readState1 N z t = some (stateAt N z t) := by
  rw [n_vars_eq hN] at hz
  have h1 : x_address N + t < z.length := by simp only [x_address]; omega
  have h2 : y_address N + t < z.length := by simp only [y_address]; omega
  have h3 : psi_address N + t < z.length := by simp only [psi_address]; omega
  have h4 : v_address N + t < z.length := by simp only [v_address]; omega
  have h5 : cte_address N + t < z.length := by simp only [cte_address]; omega
  have h6 : epsi_address N + t < z.length := by simp only [epsi_address]; omega
  simp only [readState1, rd_of_lt h1, rd_of_lt h2, rd_of_lt h3, rd_of_lt h4, rd_of_lt h5,
    rd_of_lt h6, Option.bind_eq_bind, Option.some_bind, stateAt, Option.pure_def]

theorem readState0_run {N : Nat} {z : List α} (hN : 1 ≤ N) (hz : z.length = n_vars N)
    (t : Nat) (ht1 : 1 ≤ t) (ht : t < N) : readState0 N z t = some (stateAt N z (t - 1)) := by
  have h := readState1_run hN hz (t - 1) (by omega)
  simpa only [readState0, readState1, szSub_add_one _ ht1] using h

theorem refVals_run (m : MathFns α) (c0 c1 c2 c3 x0 : α) :
    refVals m [c0, c1, c2, c3] x0 = some (f0Val c0 c1 c2 c3 x0, psides0Val m c1 c2 c3 x0) := by
  simp [refVals, rd]

theorem dynamicsBody_run (m : MathFns α) (c0 c1 c2 c3 : α) {N : Nat} {z fg : List α}
    (hN : 1 ≤ N) (hz : z.length = n_vars N) (hfg : fg.length = 1 + 6 * N)
    (t : Nat) (ht1 : 1 ≤ t) (ht : t < N) :
    dynamicsBody m [c0, c1, c2, c3] N z t fg = some
      ((((((fg.set (1 + x_address N + t) (gEntry m c0 c1 c2 c3 N z 0 t)).set
        (1 + y_address N + t) (gEntry m c0 c1 c2 c3 N z 1 t)).set
        (1 + psi_address N + t) (gEntry m c0 c1 c2 c3 N z 2 t)).set
        (1 + v_address N + t) (gEntry m c0 c1 c2 c3 N z 3 t)).set
        (1 + cte_address N + t) (gEntry m c0 c1 c2 c3 N z 4 t)).set
        (1 + epsi_address N + t) (gEntry m c0 c1 c2 c3 N z 5 t)) := by
  have hz8 := hz
  rw [n_vars_eq hN] at hz8
  have hd : delta_address N + (t - 1) < z.length := by
    simp only [delta_address]; omega
  have ha : a_address N + (t - 1) < z.length := by
    rw [a_address_eq hN]; omega
  have ht0 : t ≠ 0 := by omega
  have w1 : 1 + x_address N + t < fg.length := by simp only [x_address]; omega
  have w2 : 1 + y_address N + t < fg.length := by simp only [y_address]; omega
  have w3 : 1 + psi_address N + t < fg.length := by simp only [psi_address]; omega
  have w4 : 1 + v_address N + t < fg.length := by simp only [v_address]; omega
  have w5 : 1 + cte_address N + t < fg.length := by simp only [cte_address]; omega
  have w6 : 1 + epsi_address N + t < fg.length := by simp only [epsi_address]; omega
  simp only [dynamicsBody, readState1_run hN hz t ht, readState0_run hN hz t ht1 ht,
    szSub_add_one _ ht1, rd_of_lt hd, rd_of_lt ha, refVals_run, Option.bind_eq_bind, Option.some_bind, writeRes,
    wr, List.length_set, w1, w2, w3, w4, w5, w6, if_true, gEntry, ht0, if_false,
    szSub_add_one _ ht1]
  rfl

theorem initPart_run {N : Nat} {z fg : List α}
    (hN : 1 ≤ N) (hz : z.length = n_vars N) (hfg : fg.length = 1 + 6 * N) :
    initPart N z fg = some (set6 1 N 0 (fun b => z.getD (b * N) 0) fg) := by
  rw [n_vars_eq hN] at hz
  have h1 : x_address N < z.length := by simp only [x_address]; omega
  have h2 : y_address N < z.length := by simp only [y_address]; omega
  have h3 : psi_address N < z.length := by simp only [psi_address]; omega
  have h4 : v_address N < z.length := by simp only [v_address]; omega
  have h5 : cte_address N < z.length := by simp only [cte_address]; omega
  have h6 : epsi_address N < z.length := by simp only [epsi_address]; omega
  have w1 : 1 + x_address N < fg.length := by simp only [x_address]; omega
  have w2 : 1 + y_address N < fg.length := by simp only [y_address]; omega
  have w3 : 1 + psi_address N < fg.length := by simp only [psi_address]; omega
  have w4 : 1 + v_address N < fg.length := by simp only [v_address]; omega
  have w5 : 1 + cte_address N < fg.length := by simp only [cte_address]; omega
  have w6 : 1 + epsi_address N < fg.length := by simp only [epsi_address]; omega
  simp only [initPart, rd_of_lt h1, rd_of_lt h2, rd_of_lt h3, rd_of_lt h4, rd_of_lt h5,
    rd_of_lt h6, Option.bind_eq_bind, Option.some_bind, wr, List.length_set, w1, w2, w3, w4,
    w5, w6, if_true, set6, Nat.add_zero]
  simp only [x_address, y_address, psi_address, v_address, cte_address, epsi_address,
    Nat.zero_mul, Nat.one_mul]

theorem dynamicsBody_run_set6 (m : MathFns α) (c0 c1 c2 c3 : α) {N : Nat} {z fg : List α}
    (hN : 1 ≤ N) (hz : z.length = n_vars N) (hfg : fg.length = 1 + 6 * N)
    (t : Nat) (ht1 : 1 ≤ t) (ht : t < N) :
    dynamicsBody m [c0, c1, c2, c3] N z t fg
      = some (set6 1 N t (fun b => gEntry m c0 c1 c2 c3 N z b t) fg) :=
  dynamicsBody_run m c0 c1 c2 c3 hN hz hfg t ht1 ht

/-- What `FG_eval::operator()` leaves in `fg`: it does not fail, keeps the
length, puts the cost at index 0 and `gEntry b t` at index `1 + b*N + t`. -/
theorem FG_eval_run (m : MathFns α) (c0 c1 c2 c3 : α) {N : Nat} {z fg : List α}
    (hN : 2 ≤ N) (hz : z.length = n_vars N) (hfg : fg.length = 1 + 6 * N) :
    ∃ fg', FG_eval m [c0, c1, c2, c3] N fg z = some fg' ∧ fg'.length = 1 + 6 * N ∧
      fg'[0]? = some (costValue N z) ∧
      ∀ b, b < 6 → ∀ t, t < N → fg'[1 + b * N + t]? = some (gEntry m c0 c1 c2 c3 N z b t) := by
  have hN1 : 1 ≤ N := by omega
  obtain ⟨c, g, rfl⟩ : ∃ c g, fg = c :: g := by
    cases fg with
    | nil => simp at hfg; omega
    | cons c g => exact ⟨c, g, rfl⟩
  have hlen1 : (costValue N z :: g).length = 1 + 6 * N := by simpa using hfg
  have hlen2 : (set6 1 N 0 (fun b => z.getD (b * N) 0) (costValue N z :: g)).length = 1 + 6 * N := by
    rw [set6_length]; exact hlen1
  obtain ⟨fg', hrun, hl, h0, hg⟩ := forLoop_inv
    (fun t s => s.length = 1 + 6 * N ∧ s[0]? = some (costValue N z) ∧
      ∀ b, b < 6 → ∀ t', t' < t → s[1 + b * N + t']? = some (gEntry m c0 c1 c2 c3 N z b t'))
    (dynamicsBody m [c0, c1, c2, c3] N z) 1 N
    (set6 1 N 0 (fun b => z.getD (b * N) 0) (costValue N z :: g)) hN1
    (by
      refine ⟨hlen2, ?_, ?_⟩
      · rw [set6_miss _ _ _ (by intro b _; omega)]; simp
      · intro b hb t' ht'
        have : t' = 0 := by omega
        subst this
        rw [set6_hit _ hlen1 (by omega) b hb]
        simp [gEntry])
    (by
      intro t s ht1 ht ⟨hl, h0, hg⟩
      refine ⟨_, dynamicsBody_run_set6 m c0 c1 c2 c3 hN1 hz hl t ht1 ht, ?_, ?_, ?_⟩
      · rw [set6_length]; exact hl
      · rw [set6_miss _ _ _ (by intro b _; omega)]; exact h0
      · intro b hb t' ht'
        by_cases e : t' = t
        · subst e
          exact set6_hit _ hl ht b hb
        · rw [set6_miss]
          · exact hg b hb t' (by omega)
          · intro b' hb'
            interval_cases b <;> interval_cases b' <;> omega)
  refine ⟨fg', ?_, hl, h0, hg⟩
  simp only [FG_eval, costPart_run hN hz, initPart_run hN1 hz hlen1, Option.bind_eq_bind,
    Option.some_bind, hrun]

end ConstraintLemmas

section SolveLemmas
variable {α : Type} [LinearOrderedField α]

omit [LinearOrderedField α] in
theorem alloc_length (junk : Nat → α) (n : Nat) : (alloc junk n).length = n := by
  simp [alloc]

omit [LinearOrderedField α] in
theorem readInput_run (x y psi v cte epsi : α) :
    readInput [x, y, psi, v, cte, epsi] = some ⟨x, y, psi, v, cte, epsi⟩ := by
  simp [readInput, rd]

theorem initVars_run (junk : Nat → α) (N : Nat) :
    ∃ vars, initVars junk N = some vars ∧ vars.length = n_vars N ∧
      ∀ j, j < n_vars N → vars[j]? = some 0 := by
  obtain ⟨v, hv, hl, hall⟩ := forLoop_inv
    (fun i (v : List α) => v.length = n_vars N ∧ ∀ j, j < i → v[j]? = some 0)
    (fun i vars => wr vars i 0) 0 (n_vars N) (alloc junk (n_vars N)) (Nat.zero_le _)
    ⟨alloc_length _ _, fun j hj => absurd hj (Nat.not_lt_zero _)⟩
    (by
      intro i s _ hi ⟨hl, hall⟩
      refine ⟨s.set i 0, wr_of_lt 0 (by omega), by simpa using hl, ?_⟩
      intro j hj
      rw [List.getElem?_set]
      split_ifs with h1 h2
      · rfl
      · omega
      · exact hall j (by omega))
  exact ⟨v, hv, hl, hall⟩

omit [LinearOrderedField α] in
/-- One of the bound-filling loops: it writes `lo` / `hi` at every index of
`[start, bound)` and leaves the other entries alone. -/
theorem forLoop_bound (lo hi : α) (start bound n : Nat) (L U : List α)
    (hL : L.length = n) (hU : U.length = n) (h1 : start ≤ bound) (h2 : bound ≤ n) :
    ∃ L' U', forLoop start bound (boundBody lo hi) (L, U) = some (L', U') ∧
      L'.length = n ∧ U'.length = n ∧
      (∀ j, L'[j]? = if start ≤ j ∧ j < bound then some lo else L[j]?) ∧
      (∀ j, U'[j]? = if start ≤ j ∧ j < bound then some hi else U[j]?) := by
  obtain ⟨s, hs, hl, hu, hlo, hhi⟩ := forLoop_inv
    (fun i (s : List α × List α) => s.1.length = n ∧ s.2.length = n ∧
      (∀ j, s.1[j]? = if start ≤ j ∧ j < i then some lo else L[j]?) ∧
      (∀ j, s.2[j]? = if start ≤ j ∧ j < i then some hi else U[j]?))
    (boundBody lo hi) start bound (L, U) h1
    ⟨hL, hU, fun j => by rw [if_neg (by omega)], fun j => by rw [if_neg (by omega)]⟩
    (by
      intro i s hi1 hi2 ⟨hl, hu, hlo, hhi⟩
      refine ⟨(s.1.set i lo, s.2.set i hi), ?_, by simpa using hl, by simpa using hu, ?_, ?_⟩
      · simp only [boundBody, wr_of_lt lo (show i < s.1.length by omega),
          wr_of_lt hi (show i < s.2.length by omega), Option.bind_eq_bind, Option.some_bind,
          Option.pure_def]
      · intro j
        show (s.1.set i lo)[j]? = _
        rw [List.getElem?_set, hlo j]
        split_ifs <;> first | rfl | omega
      · intro j
        show (s.2.set i hi)[j]? = _
        rw [List.getElem?_set, hhi j]
        split_ifs <;> first | rfl | omega)
  exact ⟨s.1, s.2, hs, hl, hu, hlo, hhi⟩

/-- The per-variable bounds built by lines 166-190, entry by entry. -/
theorem varBounds_run (m : MathFns α) (junkL junkU : Nat → α) {N : Nat} (hN : 1 ≤ N) :
    ∃ lb ub, varBounds m junkL junkU N = some (lb, ub) ∧
      lb.length = n_vars N ∧ ub.length = n_vars N ∧
      (∀ j, lb[j]? =
        if j < 6 * N then some (-(10 ^ 19))
        else if j < 7 * N - 1 then some (-25 * m.pi / 180)
        else if j < 8 * N - 2 then some (-1) else none) ∧
      (∀ j, ub[j]? =
        if j < 6 * N then some (10 ^ 19)
        else if j < 7 * N - 1 then some (25 * m.pi / 180)
        else if j < 8 * N - 2 then some 1 else none) := by
  have hn := n_vars_eq hN
  have ha := a_address_eq hN
  obtain ⟨L1, U1, e1, l1, u1, p1, q1⟩ := forLoop_bound (-(10 ^ 19) : α) (10 ^ 19) 0
    (delta_address N) (n_vars N) _ _ (alloc_length junkL _) (alloc_length junkU _)
    (Nat.zero_le _) (by rw [hn]; simp only [delta_address]; omega)
  obtain ⟨L2, U2, e2, l2, u2, p2, q2⟩ := forLoop_bound (-25 * m.pi / 180) (25 * m.pi / 180)
    (delta_address N) (a_address N) (n_vars N) L1 U1 l1 u1
    (by rw [ha]; simp only [delta_address]; omega) (by rw [hn, ha]; omega)
  obtain ⟨L3, U3, e3, l3, u3, p3, q3⟩ := forLoop_bound (-1 : α) 1
    (a_address N) (n_vars N) (n_vars N) L2 U2 l2 u2
    (by rw [hn, ha]; omega) (le_refl _)
  refine ⟨L3, U3, ?_, l3, u3, ?_, ?_⟩
  · simp only [varBounds, e1, e2, e3, Option.bind_eq_bind, Option.some_bind]
  · intro j
    rw [p3 j, p2 j, p1 j]
    by_cases hj : j < 8 * N - 2
    · rw [ha, hn]
      simp only [delta_address]
      split_ifs <;> first | rfl | omega
    · have : (alloc junkL (n_vars N))[j]? = none := by
        rw [List.getElem?_eq_none]; rw [alloc_length, hn]; omega
      rw [this, ha, hn]
      simp only [delta_address]
      split_ifs <;> first | rfl | omega
  · intro j
    rw [q3 j, q2 j, q1 j]
    by_cases hj : j < 8 * N - 2
    · rw [ha, hn]
      simp only [delta_address]
      split_ifs <;> first | rfl | omega
    · have : (alloc junkU (n_vars N))[j]? = none := by
        rw [List.getElem?_eq_none]; rw [alloc_length, hn]; omega
      rw [this, ha, hn]
      simp only [delta_address]
      split_ifs <;> first | rfl | omega

omit [LinearOrderedField α] in
theorem pinState_run {N : Nat} (hN : 1 ≤ N) (s : StateAt α) {c : List α}
    (hc : c.length = 6 * N) : pinState N s c = some (set6 0 N 0 s.comp c) := by
  have w1 : x_address N < c.length := by simp only [x_address]; omega
  have w2 : y_address N < c.length := by simp only [y_address]; omega
  have w3 : psi_address N < c.length := by simp only [psi_address]; omega
  have w4 : v_address N < c.length := by simp only [v_address]; omega
  have w5 : cte_address N < c.length := by simp only [cte_address]; omega
  have w6 : epsi_address N < c.length := by simp only [epsi_address]; omega
  simp only [pinState, wr, List.length_set, w1, w2, w3, w4, w5, w6, if_true,
    Option.bind_eq_bind, Option.some_bind, set6, Nat.zero_add, Nat.add_zero, StateAt.comp]

theorem pinned_entry {N : Nat} (s : StateAt α) {cb : List α} (hc : cb.length = 6 * N)
    (hz : ∀ j, j < 6 * N → cb[j]? = some 0) (b : Nat) (hb : b < 6) (t : Nat) (ht : t < N) :
    (set6 0 N 0 s.comp cb)[b * N + t]? = some (if t = 0 then s.comp b else 0) := by
  by_cases h0 : t = 0
  · subst h0
    have e : b * N + 0 = 0 + b * N + 0 := by omega
    rw [e, set6_hit s.comp (by omega) ht b hb, if_pos rfl]
  · rw [set6_miss, if_neg h0]
    · apply hz
      interval_cases b <;> omega
    · intro b' hb'
      interval_cases b <;> interval_cases b' <;> omega

/-- The constraint bounds built by lines 194-213, entry by entry. -/
theorem constraintBounds_run (junkL junkU : Nat → α) {N : Nat} (hN : 1 ≤ N) (s : StateAt α) :
    ∃ lb ub, constraintBounds junkL junkU N s = some (lb, ub) ∧
      lb.length = 6 * N ∧ ub.length = 6 * N ∧
      (∀ b, b < 6 → ∀ t, t < N → lb[b * N + t]? = some (if t = 0 then s.comp b else 0)) ∧
      (∀ b, b < 6 → ∀ t, t < N → ub[b * N + t]? = some (if t = 0 then s.comp b else 0)) := by
  obtain ⟨L1, U1, e1, l1, u1, p1, q1⟩ := forLoop_bound (0 : α) 0 0
    (n_constraints N) (n_constraints N) _ _ (alloc_length junkL _) (alloc_length junkU _)
    (Nat.zero_le _) (le_refl _)
  simp only [n_constraints] at l1 u1 p1 q1
  have z1 : ∀ j, j < 6 * N → L1[j]? = some 0 := fun j hj => by
    rw [p1 j, if_pos ⟨Nat.zero_le _, hj⟩]
  have z2 : ∀ j, j < 6 * N → U1[j]? = some 0 := fun j hj => by
    rw [q1 j, if_pos ⟨Nat.zero_le _, hj⟩]
  refine ⟨set6 0 N 0 s.comp L1, set6 0 N 0 s.comp U1, ?_, ?_, ?_, ?_, ?_⟩
  · simp only [constraintBounds, e1, pinState_run hN s l1, pinState_run hN s u1,
      Option.bind_eq_bind, Option.some_bind, Option.pure_def]
  · rw [set6_length]; exact l1
  · rw [set6_length]; exact u1
  · exact fun b hb t ht => pinned_entry s l1 z1 b hb t ht
  · exact fun b hb t ht => pinned_entry s u1 z2 b hb t ht

/-- Everything `MPC::Solve` hands to the solver, for a state of six scalars. -/
theorem Solve_args_run (m : MathFns α) (junk : Nat → Nat → α) {N : Nat} (hN : 1 ≤ N)
    (x y psi v cte epsi : α) (coeffs : List α) :
    ∃ xi xl xu gl gu,
      Solve_args m junk N [x, y, psi, v, cte, epsi] coeffs
        = some ⟨xi, xl, xu, gl, gu, fun fg z => FG_eval m coeffs N fg z⟩ ∧
      varBounds m (junk 1) (junk 2) N = some (xl, xu) ∧
      constraintBounds (junk 3) (junk 4) N ⟨x, y, psi, v, cte, epsi⟩ = some (gl, gu) ∧
      initVars (junk 0) N = some xi := by
  obtain ⟨xi, e1, -, -⟩ := initVars_run (junk 0) N
  obtain ⟨xl, xu, e2, -⟩ := varBounds_run m (junk 1) (junk 2) hN
  obtain ⟨gl, gu, e3, -⟩ := constraintBounds_run (junk 3) (junk 4) hN
    (⟨x, y, psi, v, cte, epsi⟩ : StateAt α)
  refine ⟨xi, xl, xu, gl, gu, ?_, e2, e3, e1⟩
  simp only [Solve_args, readInput_run, e1, e2, e3, Option.bind_eq_bind, Option.some_bind,
    Option.pure_def]

omit [LinearOrderedField α] in
theorem previewBody_run {N : Nat} {xs : List α} [Zero α] (i : Nat)
    (h1 : x_address N + i + 1 < xs.length) (h2 : y_address N + i + 1 < xs.length)
    (result : List α) :
    previewBody N xs i result
      = some (result ++ [xs.getD (x_address N + i + 1) 0] ++ [xs.getD (y_address N + i + 1) 0]) := by
  simp only [previewBody, rd_of_lt h1, rd_of_lt h2, Option.bind_eq_bind, Option.some_bind,
    Option.pure_def]

/-- What lines 241-264 return for a solver result whose vector has `n_vars`
entries. -/
theorem Solve_result_run {N : Nat} (hN : 2 ≤ N) (sol : SolveResult α)
    (hx : sol.x.length = n_vars N) :
    ∃ r, Solve_result N sol = some r ∧ r.length = 2 + 2 * (N - 2) ∧
      r[0]? = some (sol.x.getD (delta_address N) 0) ∧
      r[1]? = some (sol.x.getD (a_address N) 0) ∧
      ∀ i, i < N - 2 →
        r[2 + 2 * i]? = some (sol.x.getD (x_address N + i + 1) 0) ∧
        r[3 + 2 * i]? = some (sol.x.getD (y_address N + i + 1) 0) := by
  have hN1 : 1 ≤ N := by omega
  have hx8 := hx
  rw [n_vars_eq hN1] at hx8
  have hd : delta_address N < sol.x.length := by simp only [delta_address]; omega
  have ha : a_address N < sol.x.length := by rw [a_address_eq hN1]; omega
  obtain ⟨r, hr, hl, h0, h1, hp⟩ := forLoop_inv
    (fun i (r : List α) => r.length = 2 + 2 * i ∧
      r[0]? = some (sol.x.getD (delta_address N) 0) ∧
      r[1]? = some (sol.x.getD (a_address N) 0) ∧
      ∀ k, k < i →
        r[2 + 2 * k]? = some (sol.x.getD (x_address N + k + 1) 0) ∧
        r[3 + 2 * k]? = some (sol.x.getD (y_address N + k + 1) 0))
    (previewBody N sol.x) 0 (N - 2)
    ([] ++ [sol.x.getD (delta_address N) 0] ++ [sol.x.getD (a_address N) 0])
    (Nat.zero_le _)
    ⟨by simp, by simp, by simp, fun k hk => absurd hk (Nat.not_lt_zero _)⟩
    (by
      intro i r _ hi ⟨hl, h0, h1, hp⟩
      refine ⟨_, previewBody_run i (by simp only [x_address]; omega)
        (by simp only [y_address]; omega) r, ?_, ?_, ?_, ?_⟩
      · simp only [List.length_append, List.length_singleton, hl]; omega
      · rw [List.append_assoc, List.getElem?_append_left (by omega)]; exact h0
      · rw [List.append_assoc, List.getElem?_append_left (by omega)]; exact h1
      · intro k hk
        by_cases e : k = i
        · subst e
          constructor
          · rw [List.append_assoc, List.getElem?_append_right (by omega)]
            have : 2 + 2 * k - r.length = 0 := by omega
            rw [this]; rfl
          · rw [List.append_assoc, List.getElem?_append_right (by omega)]
            have : 3 + 2 * k - r.length = 1 := by omega
            rw [this]; rfl
        · obtain ⟨p1, p2⟩ := hp k (by omega)
          constructor
          · rw [List.append_assoc, List.getElem?_append_left (by omega)]; exact p1
          · rw [List.append_assoc, List.getElem?_append_left (by omega)]; exact p2)
  refine ⟨r, ?_, hl, h0, h1, hp⟩
  simp only [Solve_result, rd_of_lt hd, rd_of_lt ha, szSub_of_le hN, Option.bind_eq_bind,
    Option.some_bind, hr]

omit [LinearOrderedField α] in
/-- Every constraint index is `b*N + t` for one block `b` and one step `t`. -/
theorem index_block_step {N : Nat} (hN : 1 ≤ N) (k : Nat) (hk : k < 6 * N) :
    ∃ b t, b < 6 ∧ t < N ∧ k = b * N + t := by
  refine ⟨k / N, k % N, ?_, Nat.mod_lt _ (by omega), ?_⟩
  · rw [Nat.div_lt_iff_lt_mul (by omega)]; exact hk
  · rw [Nat.mul_comm]; exact (Nat.div_add_mod k N).symm

/-- The constraint values lie within bounds whose lower and upper entries
coincide exactly when every constraint value equals its bound. -/
theorem within_iff_entries {gl gu fg' : List α} {N : Nat} (P G : Nat → Nat → α)
    (hl : gl.length = 6 * N)
    (hlo : ∀ b, b < 6 → ∀ t, t < N → gl[b * N + t]? = some (P b t))
    (hhi : ∀ b, b < 6 → ∀ t, t < N → gu[b * N + t]? = some (P b t))
    (hg : ∀ b, b < 6 → ∀ t, t < N → fg'[1 + b * N + t]? = some (G b t)) :
    withinConstraintBounds gl gu fg' ↔ ∀ b, b < 6 → ∀ t, t < N → G b t = P b t := by
  have vals : ∀ b, b < 6 → ∀ t, t < N →
      gl.getD (b * N + t) 0 = P b t ∧ gu.getD (b * N + t) 0 = P b t ∧
        fg'.getD (1 + (b * N + t)) 0 = G b t := by
    intro b hb t ht
    refine ⟨getD_eq_of_getElem? (hlo b hb t ht), getD_eq_of_getElem? (hhi b hb t ht), ?_⟩
    rw [← Nat.add_assoc]
    exact getD_eq_of_getElem? (hg b hb t ht)
  constructor
  · intro H b hb t ht
    have hk : b * N + t < gl.length := by
      rw [hl]; interval_cases b <;> omega
    obtain ⟨h1, h2⟩ := H (b * N + t) hk
    obtain ⟨e1, e2, e3⟩ := vals b hb t ht
    rw [e1, e3] at h1
    rw [e2, e3] at h2
    exact le_antisymm h2 h1
  · intro H k hk
    rw [hl] at hk
    have hN1 : 1 ≤ N := by omega
    obtain ⟨b, t, hb, ht, rfl⟩ := index_block_step hN1 k hk
    obtain ⟨e1, e2, e3⟩ := vals b hb t ht
    rw [e1, e2, e3, H b hb t ht]
    exact ⟨le_refl _, le_refl _⟩

/-- The constraint values equal the pinned bounds exactly when the `t = 0`
state entries of `z` are the state and every later residual vanishes. -/
theorem entries_iff_explicit (m : MathFns α) (c0 c1 c2 c3 : α) (N : Nat) (z : List α)
    (x y psi v cte epsi : α) :
    (∀ b, b < 6 → ∀ t, t < N → gEntry m c0 c1 c2 c3 N z b t
        = if t = 0 then (⟨x, y, psi, v, cte, epsi⟩ : StateAt α).comp b else 0) ↔
      ((1 ≤ N → z.getD (x_address N) 0 = x ∧ z.getD (y_address N) 0 = y ∧
          z.getD (psi_address N) 0 = psi ∧ z.getD (v_address N) 0 = v ∧
          z.getD (cte_address N) 0 = cte ∧ z.getD (epsi_address N) 0 = epsi) ∧
        ∀ t, 1 ≤ t → t < N →
          resX m (stateAt N z t) (stateAt N z (t - 1)) = 0 ∧
          resY m (stateAt N z t) (stateAt N z (t - 1)) = 0 ∧
          resPsi (stateAt N z t) (stateAt N z (t - 1))
            (z.getD (delta_address N + (t - 1)) 0) = 0 ∧
          resV (stateAt N z t) (stateAt N z (t - 1)) (z.getD (a_address N + (t - 1)) 0) = 0 ∧
          resCte m (stateAt N z t) (stateAt N z (t - 1))
            (f0Val c0 c1 c2 c3 (z.getD (x_address N + (t - 1)) 0)) = 0 ∧
          resEpsi (stateAt N z t) (stateAt N z (t - 1))
            (psides0Val m c1 c2 c3 (z.getD (x_address N + (t - 1)) 0))
            (z.getD (delta_address N + (t - 1)) 0) = 0) := by
  constructor
  · intro H
    constructor
    · intro hN1
      have h := fun b hb => H b hb 0 (by omega)
      have e0 := h 0 (by omega)
      have e1 := h 1 (by omega)
      have e2 := h 2 (by omega)
      have e3 := h 3 (by omega)
      have e4 := h 4 (by omega)
      have e5 := h 5 (by omega)
      simp only [gEntry, if_true, Nat.zero_mul, Nat.one_mul, StateAt.comp]
        at e0 e1 e2 e3 e4 e5
      exact ⟨e0, e1, e2, e3, e4, e5⟩
    · intro t ht1 ht
      have ht0 : t ≠ 0 := by omega
      have h := fun b hb => H b hb t ht
      have e0 := h 0 (by omega)
      have e1 := h 1 (by omega)
      have e2 := h 2 (by omega)
      have e3 := h 3 (by omega)
      have e4 := h 4 (by omega)
      have e5 := h 5 (by omega)
      simp only [gEntry, ht0, if_false] at e0 e1 e2 e3 e4 e5
      exact ⟨e0, e1, e2, e3, e4, e5⟩
  · rintro ⟨H0, H1⟩ b hb t ht
    by_cases ht0 : t = 0
    · subst ht0
      obtain ⟨e0, e1, e2, e3, e4, e5⟩ := H0 (by omega)
      simp only [x_address, y_address, psi_address, v_address, cte_address, epsi_address]
        at e0 e1 e2 e3 e4 e5
      interval_cases b <;>
        simp only [gEntry, if_true, Nat.zero_mul, Nat.one_mul, StateAt.comp] <;> assumption
    · obtain ⟨e0, e1, e2, e3, e4, e5⟩ := H1 t (by omega) ht
      interval_cases b <;> simp only [gEntry, ht0, if_false] <;> assumption

/-- The per-variable bounds among the arguments handed to the solver. -/
theorem Solve_args_var_bounds (m : MathFns α) (junk : Nat → Nat → α) {N : Nat} (hN : 1 ≤ N)
    (x y psi v cte epsi : α) (coeffs : List α) :
    ∃ args, Solve_args m junk N [x, y, psi, v, cte, epsi] coeffs = some args ∧
      (∀ j, args.xl[j]? =
        if j < 6 * N then some (-(10 ^ 19))
        else if j < 7 * N - 1 then some (-25 * m.pi / 180)
        else if j < 8 * N - 2 then some (-1) else none) ∧
      (∀ j, args.xu[j]? =
        if j < 6 * N then some (10 ^ 19)
        else if j < 7 * N - 1 then some (25 * m.pi / 180)
        else if j < 8 * N - 2 then some 1 else none) := by
  obtain ⟨xi, xl, xu, gl, gu, hargs, hvb, -, -⟩ :=
    Solve_args_run m junk hN x y psi v cte epsi coeffs
  obtain ⟨lb, ub, hb, -, -, hlo, hhi⟩ := varBounds_run m (junk 1) (junk 2) hN
  rw [hvb] at hb
  obtain ⟨rfl, rfl⟩ : xl = lb ∧ xu = ub := by simpa using hb
  exact ⟨_, hargs, hlo, hhi⟩

omit [LinearOrderedField α] in
/-- The value returned by lines 241-264 depends on the solver's vector only. -/
theorem Solve_result_of_x_eq (N : Nat) (s1 s2 : SolveResult α) (h : s1.x = s2.x) :
    Solve_result N s1 = Solve_result N s2 := by
  simp only [Solve_result, h]

/-- Two solvers that return the same vector give the same value of
`MPC::Solve`. -/
theorem Solve_of_x_eq (m : MathFns α) (solver1 solver2 : SolveArgs α → SolveResult α)
    (junk : Nat → Nat → α) (N : Nat) (state coeffs : List α)
    (h : ∀ args, (solver1 args).x = (solver2 args).x) :
    Solve m solver1 junk N state coeffs = Solve m solver2 junk N state coeffs := by
  simp only [Solve]
  cases Solve_args m junk N state coeffs with
  | none => rfl
  | some args => exact Solve_result_of_x_eq N _ _ (h args)

/-- The value of `MPC::Solve` for a solver that ignores its arguments. -/
theorem Solve_const (m : MathFns α) (sol : SolveResult α) (junk : Nat → Nat → α) {N : Nat}
    (hN : 1 ≤ N) (x y psi v cte epsi : α) (coeffs : List α) :
    Solve m (fun _ => sol) junk N [x, y, psi, v, cte, epsi] coeffs = Solve_result N sol := by
  obtain ⟨xi, xl, xu, gl, gu, hargs, -⟩ := Solve_args_run m junk hN x y psi v cte epsi coeffs
  simp only [Solve, hargs, Option.bind_eq_bind, Option.some_bind]

/-- The constraints of `MPC::Solve` hold for `z` exactly when `z` starts at the
state and every residual of the model vanishes. -/
theorem satisfiesConstraints_iff_res (m : MathFns α) (junk : Nat → Nat → α) {N : Nat}
    (x y psi v cte epsi c0 c1 c2 c3 : α) {z fg : List α}
    (hN : 2 ≤ N) (hz : z.length = n_vars N) (hfg : fg.length = 1 + 6 * N) :
    satisfiesConstraints m junk N [x, y, psi, v, cte, epsi] [c0, c1, c2, c3] fg z ↔
      ((z.getD (x_address N) 0 = x ∧ z.getD (y_address N) 0 = y ∧
          z.getD (psi_address N) 0 = psi ∧ z.getD (v_address N) 0 = v ∧
          z.getD (cte_address N) 0 = cte ∧ z.getD (epsi_address N) 0 = epsi) ∧
        ∀ t, 1 ≤ t → t < N →
          resX m (stateAt N z t) (stateAt N z (t - 1)) = 0 ∧
          resY m (stateAt N z t) (stateAt N z (t - 1)) = 0 ∧
          resPsi (stateAt N z t) (stateAt N z (t - 1))
            (z.getD (delta_address N + (t - 1)) 0) = 0 ∧
          resV (stateAt N z t) (stateAt N z (t - 1)) (z.getD (a_address N + (t - 1)) 0) = 0 ∧
          resCte m (stateAt N z t) (stateAt N z (t - 1))
            (f0Val c0 c1 c2 c3 (z.getD (x_address N + (t - 1)) 0)) = 0 ∧
          resEpsi (stateAt N z t) (stateAt N z (t - 1))
            (psides0Val m c1 c2 c3 (z.getD (x_address N + (t - 1)) 0))
            (z.getD (delta_address N + (t - 1)) 0) = 0) := by
  have hN1 : 1 ≤ N := by omega
  obtain ⟨xi, xl, xu, gl, gu, hargs, -, hcb, -⟩ :=
    Solve_args_run m junk hN1 x y psi v cte epsi [c0, c1, c2, c3]
  obtain ⟨lb, ub, hb, hl, hu, hlo, hhi⟩ := constraintBounds_run (junk 3) (junk 4) hN1
    (⟨x, y, psi, v, cte, epsi⟩ : StateAt α)
  rw [hcb] at hb
  obtain ⟨rfl, rfl⟩ : gl = lb ∧ gu = ub := by simpa using hb
  obtain ⟨fg', hrun, -, -, hg⟩ := FG_eval_run m c0 c1 c2 c3 hN hz hfg
  simp only [satisfiesConstraints, hargs, hrun]
  rw [within_iff_entries _ _ hl hlo hhi hg, entries_iff_explicit]
  constructor
  · rintro ⟨H0, H1⟩
    exact ⟨H0 hN1, H1⟩
  · rintro ⟨H0, H1⟩
    exact ⟨fun _ => H0, H1⟩

/-- The cost of a decision vector of the right length is `costValue`. -/
theorem costOf_eq (m : MathFns α) (c0 c1 c2 c3 : α) {N : Nat} {z fg : List α}
    (hN : 2 ≤ N) (hz : z.length = n_vars N) (hfg : fg.length = 1 + 6 * N) :
    costOf m [c0, c1, c2, c3] N fg z = some (costValue N z) := by
  obtain ⟨fg', hrun, -, h0, -⟩ := FG_eval_run m c0 c1 c2 c3 hN hz hfg
  simp only [costOf, hrun, Option.some_bind, rd, h0]

/-- The initial guess among the arguments handed to the solver. -/
theorem Solve_args_xi (m : MathFns α) (junk : Nat → Nat → α) {N : Nat} (hN : 1 ≤ N)
    (x y psi v cte epsi : α) (coeffs : List α) :
    ∃ args, Solve_args m junk N [x, y, psi, v, cte, epsi] coeffs = some args ∧
      args.xi.length = n_vars N ∧ ∀ j, j < n_vars N → args.xi[j]? = some 0 := by
  obtain ⟨xi, xl, xu, gl, gu, hargs, -, -, hxi⟩ :=
    Solve_args_run m junk hN x y psi v cte epsi coeffs
  obtain ⟨vars, hv, hl, hall⟩ := initVars_run (junk 0) N
  rw [hxi] at hv
  obtain rfl := Option.some.inj hv
  exact ⟨_, hargs, hl, hall⟩

end SolveLemmas

/-! ## Sign of the cost -/

section CostFacts
variable {α : Type} [LinearOrderedField α]

theorem costValue_nonneg (N : Nat) (z : List α) : 0 ≤ costValue N z := by
  unfold costValue
  have h1 : 0 ≤ ∑ i ∈ Finset.range N,
      (1000 * (z.getD (cte_address N + i) 0 - ref_cte) ^ 2
        + 1000 * (z.getD (epsi_address N + i) 0 - ref_epsi) ^ 2
        + (z.getD (v_address N + i) 0 - ref_v) ^ 2) :=
    Finset.sum_nonneg (fun i _ => by positivity)
  have h2 : 0 ≤ ∑ i ∈ Finset.range (N - 1),
      (50 * z.getD (delta_address N + i) 0 ^ 2 + 50 * z.getD (a_address N + i) 0 ^ 2) :=
    Finset.sum_nonneg (fun i _ => by positivity)
  have h3 : 0 ≤ ∑ i ∈ Finset.range (N - 2),
      (250000 * (z.getD (delta_address N + i + 1) 0 - z.getD (delta_address N + i) 0) ^ 2
        + 5000 * (z.getD (a_address N + i + 1) 0 - z.getD (a_address N + i) 0) ^ 2) :=
    Finset.sum_nonneg (fun i _ => by positivity)
  linarith

/-- The cost vanishes exactly when every tracking error and every actuator
entry vanishes. -/
theorem costValue_eq_zero_iff (N : Nat) (z : List α) :
    costValue N z = 0 ↔
      (∀ t, t < N → z.getD (cte_address N + t) 0 = 0 ∧ z.getD (epsi_address N + t) 0 = 0 ∧
        z.getD (v_address N + t) 0 = 100) ∧
      (∀ t, t < N - 1 → z.getD (delta_address N + t) 0 = 0 ∧ z.getD (a_address N + t) 0 = 0) := by
  have n1 : ∀ i ∈ Finset.range N, 0 ≤
      (1000 * (z.getD (cte_address N + i) 0 - ref_cte) ^ 2
        + 1000 * (z.getD (epsi_address N + i) 0 - ref_epsi) ^ 2
        + (z.getD (v_address N + i) 0 - ref_v) ^ 2) := fun i _ => by positivity
  have n2 : ∀ i ∈ Finset.range (N - 1), 0 ≤
      (50 * z.getD (delta_address N + i) 0 ^ 2 + 50 * z.getD (a_address N + i) 0 ^ 2) :=
    fun i _ => by positivity
  have n3 : ∀ i ∈ Finset.range (N - 2), 0 ≤
      (250000 * (z.getD (delta_address N + i + 1) 0 - z.getD (delta_address N + i) 0) ^ 2
        + 5000 * (z.getD (a_address N + i + 1) 0 - z.getD (a_address N + i) 0) ^ 2) :=
    fun i _ => by positivity
  have h1 := Finset.sum_nonneg n1
  have h2 := Finset.sum_nonneg n2
  have h3 := Finset.sum_nonneg n3
  constructor
  · intro h
    unfold costValue at h
    have e1 : ∑ i ∈ Finset.range N,
        (1000 * (z.getD (cte_address N + i) 0 - ref_cte) ^ 2
          + 1000 * (z.getD (epsi_address N + i) 0 - ref_epsi) ^ 2
          + (z.getD (v_address N + i) 0 - ref_v) ^ 2) = 0 := by linarith
    have e2 : ∑ i ∈ Finset.range (N - 1),
        (50 * z.getD (delta_address N + i) 0 ^ 2 + 50 * z.getD (a_address N + i) 0 ^ 2) = 0 := by
      linarith
    rw [Finset.sum_eq_zero_iff_of_nonneg n1] at e1
    rw [Finset.sum_eq_zero_iff_of_nonneg n2] at e2
    constructor
    · intro t ht
      have e := e1 t (Finset.mem_range.2 ht)
      simp only [ref_cte, ref_epsi, ref_v, sub_zero] at e
      have q1 : 0 ≤ (z.getD (cte_address N + t) 0) ^ 2 := sq_nonneg _
      have q2 : 0 ≤ (z.getD (epsi_address N + t) 0) ^ 2 := sq_nonneg _
      have q3 : 0 ≤ (z.getD (v_address N + t) 0 - 100) ^ 2 := sq_nonneg _
      have r1 : (z.getD (cte_address N + t) 0) ^ 2 = 0 := by linarith
      have r2 : (z.getD (epsi_address N + t) 0) ^ 2 = 0 := by linarith
      have r3 : (z.getD (v_address N + t) 0 - 100) ^ 2 = 0 := by linarith
      exact ⟨pow_eq_zero_iff (two_ne_zero) |>.1 r1, pow_eq_zero_iff (two_ne_zero) |>.1 r2,
        sub_eq_zero.1 (pow_eq_zero_iff (two_ne_zero) |>.1 r3)⟩
    · intro t ht
      have e := e2 t (Finset.mem_range.2 ht)
      have q1 : 0 ≤ (z.getD (delta_address N + t) 0) ^ 2 := sq_nonneg _
      have q2 : 0 ≤ (z.getD (a_address N + t) 0) ^ 2 := sq_nonneg _
      have r1 : (z.getD (delta_address N + t) 0) ^ 2 = 0 := by linarith
      have r2 : (z.getD (a_address N + t) 0) ^ 2 = 0 := by linarith
      exact ⟨pow_eq_zero_iff (two_ne_zero) |>.1 r1, pow_eq_zero_iff (two_ne_zero) |>.1 r2⟩
  · rintro ⟨H1, H2⟩
    unfold costValue
    have e1 : ∑ i ∈ Finset.range N,
        (1000 * (z.getD (cte_address N + i) 0 - ref_cte) ^ 2
          + 1000 * (z.getD (epsi_address N + i) 0 - ref_epsi) ^ 2
          + (z.getD (v_address N + i) 0 - ref_v) ^ 2) = 0 := by
      apply Finset.sum_eq_zero
      intro i hi
      obtain ⟨a, b, c⟩ := H1 i (Finset.mem_range.1 hi)
      rw [a, b, c]
      simp [ref_cte, ref_epsi, ref_v]
    have e2 : ∑ i ∈ Finset.range (N - 1),
        (50 * z.getD (delta_address N + i) 0 ^ 2 + 50 * z.getD (a_address N + i) 0 ^ 2) = 0 := by
      apply Finset.sum_eq_zero
      intro i hi
      obtain ⟨a, b⟩ := H2 i (Finset.mem_range.1 hi)
      rw [a, b]
      simp
    have e3 : ∑ i ∈ Finset.range (N - 2),
        (250000 * (z.getD (delta_address N + i + 1) 0 - z.getD (delta_address N + i) 0) ^ 2
          + 5000 * (z.getD (a_address N + i + 1) 0 - z.getD (a_address N + i) 0) ^ 2) = 0 := by
      apply Finset.sum_eq_zero
      intro i hi
      have hi' := Finset.mem_range.1 hi
      obtain ⟨a, b⟩ := H2 i (by omega)
      obtain ⟨a', b'⟩ := H2 (i + 1) (by omega)
      rw [Nat.add_assoc, Nat.add_assoc (a_address N), a, b, a', b']
      simp
    rw [e1, e2, e3]
    simp

end CostFacts

/-! ## The zero-effort vector -/

section ZeroEffort
variable {α : Type} [LinearOrderedField α]

theorem zeroEffortVec_length (N : Nat) : (zeroEffortVec N : List α).length = n_vars N := by
  simp [zeroEffortVec]

theorem zeroEffortVec_getD (N : Nat) {i : Nat} (hi : i < n_vars N) :
    (zeroEffortVec N : List α).getD i 0 =
      if i < y_address N then 100 * (1 / 10) * ((i - x_address N : Nat) : α)
      else if v_address N ≤ i ∧ i < cte_address N then 100
      else 0 := by
  simp only [zeroEffortVec, List.getD_eq_getElem?_getD, List.getElem?_map,
    List.getElem?_range hi, Option.map_some', Option.getD_some]

/-- The state blocks of the zero-effort vector. -/
theorem zeroEffortVec_state {N : Nat} (hN : 1 ≤ N) (t : Nat) (ht : t < N) :
    stateAt N (zeroEffortVec N : List α) t = ⟨100 * (1 / 10) * (t : α), 0, 0, 100, 0, 0⟩ := by
  have hn := n_vars_eq hN
  have h0 : x_address N + t < n_vars N := by rw [hn]; simp only [x_address]; omega
  have h1 : y_address N + t < n_vars N := by rw [hn]; simp only [y_address]; omega
  have h2 : psi_address N + t < n_vars N := by rw [hn]; simp only [psi_address]; omega
  have h3 : v_address N + t < n_vars N := by rw [hn]; simp only [v_address]; omega
  have h4 : cte_address N + t < n_vars N := by rw [hn]; simp only [cte_address]; omega
  have h5 : epsi_address N + t < n_vars N := by rw [hn]; simp only [epsi_address]; omega
  simp only [stateAt]
  rw [zeroEffortVec_getD N h0, zeroEffortVec_getD N h1, zeroEffortVec_getD N h2,
    zeroEffortVec_getD N h3, zeroEffortVec_getD N h4, zeroEffortVec_getD N h5]
  simp only [x_address, y_address, psi_address, v_address, cte_address, epsi_address]
  have a0 : 0 + t < N := by omega
  have a0' : t < N := ht
  have a1 : ¬ (N + t < N) := by omega
  have a2 : ¬ (2 * N + t < N) := by omega
  have a3 : ¬ (3 * N + t < N) := by omega
  have a4 : ¬ (4 * N + t < N) := by omega
  have a5 : ¬ (5 * N + t < N) := by omega
  have b1 : ¬ (3 * N ≤ N + t ∧ N + t < 4 * N) := by omega
  have b2 : ¬ (3 * N ≤ 2 * N + t ∧ 2 * N + t < 4 * N) := by omega
  have b3 : 3 * N ≤ 3 * N + t ∧ 3 * N + t < 4 * N := by omega
  have b4 : ¬ (3 * N ≤ 4 * N + t ∧ 4 * N + t < 4 * N) := by omega
  have b5 : ¬ (3 * N ≤ 5 * N + t ∧ 5 * N + t < 4 * N) := by omega
  simp only [a0, a0', a1, a2, a3, a4, a5, b1, b2, b3, b4, b5, if_true, if_false, Nat.zero_add,
    Nat.sub_zero, and_self]

/-- The actuator blocks of the zero-effort vector. -/
theorem zeroEffortVec_actuators {N : Nat} (hN : 1 ≤ N) (t : Nat) (ht : t < N - 1) :
    (zeroEffortVec N : List α).getD (delta_address N + t) 0 = 0 ∧
      (zeroEffortVec N : List α).getD (a_address N + t) 0 = 0 := by
  have hn := n_vars_eq hN
  have ha := a_address_eq hN
  have h0 : delta_address N + t < n_vars N := by rw [hn]; simp only [delta_address]; omega
  have h1 : a_address N + t < n_vars N := by rw [hn, ha]; omega
  rw [zeroEffortVec_getD N h0, zeroEffortVec_getD N h1, ha]
  simp only [delta_address, y_address, v_address, cte_address]
  constructor
  · rw [if_neg (by omega), if_neg (by omega)]
  · rw [if_neg (by omega), if_neg (by omega)]

/-- The zero-effort vector satisfies the constraints built for the state at
reference, with a flat reference line, when `cos 0 = 1`, `sin 0 = 0`,
`atan 0 = 0`. -/
theorem zeroEffortVec_feasible (m : MathFns α) (junk : Nat → Nat → α) {N : Nat} {fg : List α}
    (hN : 2 ≤ N) (hfg : fg.length = 1 + 6 * N)
    (hcos : m.cos 0 = 1) (hsin : m.sin 0 = 0) (hatan : m.atan 0 = 0) :
    satisfiesConstraints m junk N [0, 0, 0, 100, 0, 0] [0, 0, 0, 0] fg (zeroEffortVec N) := by
  have hN1 : 1 ≤ N := by omega
  rw [satisfiesConstraints_iff_res m junk 0 0 0 100 0 0 0 0 0 0 hN (zeroEffortVec_length N) hfg]
  constructor
  · have h := zeroEffortVec_state (α := α) hN1 0 (by omega)
    simp only [stateAt, Nat.add_zero, StateAt.mk.injEq] at h
    obtain ⟨e0, e1, e2, e3, e4, e5⟩ := h
    refine ⟨?_, e1, e2, e3, e4, e5⟩
    rw [e0]; simp
  · intro t ht1 ht
    have hd := (zeroEffortVec_actuators (α := α) hN1 (t - 1) (by omega)).1
    have ha := (zeroEffortVec_actuators (α := α) hN1 (t - 1) (by omega)).2
    have hx : (zeroEffortVec N : List α).getD (x_address N + (t - 1)) 0
        = 100 * (1 / 10) * ((t - 1 : Nat) : α) := by
      have h := zeroEffortVec_state (α := α) hN1 (t - 1) (by omega)
      simp only [stateAt, StateAt.mk.injEq] at h
      exact h.1
    have hc : ((t - 1 : Nat) : α) = (t : α) - 1 := by
      rw [Nat.cast_sub ht1]; simp
    simp only [resX, resY, resPsi, resV, resCte, resEpsi, f0Val, psides0Val,
      zeroEffortVec_state hN1 t ht, zeroEffortVec_state hN1 (t - 1) (by omega), hd, ha, hx,
      hcos, hsin, hatan, dt, Lf, hc]
    refine ⟨?_, ?_, ?_, ?_, ?_, ?_⟩ <;> norm_num [hatan]
    ring

/-- The zero-effort vector has cost 0. -/
theorem zeroEffortVec_cost {N : Nat} (hN : 1 ≤ N) : costValue N (zeroEffortVec N : List α) = 0 := by
  rw [costValue_eq_zero_iff]
  constructor
  · intro t ht
    have h := zeroEffortVec_state (α := α) hN t ht
    simp only [stateAt, StateAt.mk.injEq] at h
    exact ⟨h.2.2.2.2.1, h.2.2.2.2.2, h.2.2.2.1⟩
  · intro t ht
    exact zeroEffortVec_actuators hN t ht

end ZeroEffort

/-! ## Replacing the entry at `cte_address` -/

section CteShift
variable {α : Type} [LinearOrderedField α]

theorem getD_set_ne {l : List α} {i j : Nat} (a : α) (h : i ≠ j) :
    (l.set i a).getD j 0 = l.getD j 0 := by
  simp only [List.getD_eq_getElem?_getD, List.getElem?_set_ne h]

theorem getD_set_self {l : List α} {i : Nat} (a : α) (h : i < l.length) :
    (l.set i a).getD i 0 = a := by
  simp only [List.getD_eq_getElem?_getD, List.getElem?_set_self h, Option.getD_some]

/-- Changing one term of a sum over `0..N-1`, the one at index 0. -/
theorem sum_range_change_zero (f g : Nat → α) {N : Nat} (hN : 1 ≤ N)
    (h : ∀ i, i ≠ 0 → i < N → g i = f i) :
    ∑ i ∈ Finset.range N, g i = ∑ i ∈ Finset.range N, f i + (g 0 - f 0) := by
  obtain ⟨k, rfl⟩ : ∃ k, N = k + 1 := ⟨N - 1, by omega⟩
  rw [Finset.sum_range_succ', Finset.sum_range_succ']
  have e : ∑ i ∈ Finset.range k, g (i + 1) = ∑ i ∈ Finset.range k, f (i + 1) :=
    Finset.sum_congr rfl (fun i hi => h (i + 1) (by omega)
      (by have := Finset.mem_range.1 hi; omega))
  rw [e]
  ring

/-- The cost after the entry at `cte_address` is replaced. -/
theorem costValue_set_cte {N : Nat} {z : List α} (hN : 1 ≤ N) (hz : z.length = n_vars N)
    (cte' : α) :
    costValue N (z.set (cte_address N) cte')
      = costValue N z + 1000 * (cte' ^ 2 - z.getD (cte_address N) 0 ^ 2) := by
  have hn := n_vars_eq hN
  have ha := a_address_eq hN
  have hlt : cte_address N < z.length := by rw [hz, hn]; simp only [cte_address]; omega
  have t1 := sum_range_change_zero
    (fun i => 1000 * (z.getD (cte_address N + i) 0 - ref_cte) ^ 2
      + 1000 * (z.getD (epsi_address N + i) 0 - ref_epsi) ^ 2
      + (z.getD (v_address N + i) 0 - ref_v) ^ 2)
    (fun i => 1000 * ((z.set (cte_address N) cte').getD (cte_address N + i) 0 - ref_cte) ^ 2
      + 1000 * ((z.set (cte_address N) cte').getD (epsi_address N + i) 0 - ref_epsi) ^ 2
      + ((z.set (cte_address N) cte').getD (v_address N + i) 0 - ref_v) ^ 2) hN
    (by
      intro i hi hiN
      simp only []
      rw [getD_set_ne _ (show cte_address N ≠ cte_address N + i by omega),
        getD_set_ne _ (show cte_address N ≠ epsi_address N + i by
          simp only [cte_address, epsi_address]; omega),
        getD_set_ne _ (show cte_address N ≠ v_address N + i by
          simp only [cte_address, v_address]; omega)])
  have t2 : ∑ i ∈ Finset.range (N - 1),
      (50 * (z.set (cte_address N) cte').getD (delta_address N + i) 0 ^ 2
        + 50 * (z.set (cte_address N) cte').getD (a_address N + i) 0 ^ 2)
      = ∑ i ∈ Finset.range (N - 1),
      (50 * z.getD (delta_address N + i) 0 ^ 2 + 50 * z.getD (a_address N + i) 0 ^ 2) := by
    apply Finset.sum_congr rfl
    intro i _
    rw [getD_set_ne _ (show cte_address N ≠ delta_address N + i by
          simp only [cte_address, delta_address]; omega),
      getD_set_ne _ (show cte_address N ≠ a_address N + i by
          rw [ha]; simp only [cte_address]; omega)]
  have t3 : ∑ i ∈ Finset.range (N - 2),
      (250000 * ((z.set (cte_address N) cte').getD (delta_address N + i + 1) 0
          - (z.set (cte_address N) cte').getD (delta_address N + i) 0) ^ 2
        + 5000 * ((z.set (cte_address N) cte').getD (a_address N + i + 1) 0
          - (z.set (cte_address N) cte').getD (a_address N + i) 0) ^ 2)
      = ∑ i ∈ Finset.range (N - 2),
      (250000 * (z.getD (delta_address N + i + 1) 0 - z.getD (delta_address N + i) 0) ^ 2
        + 5000 * (z.getD (a_address N + i + 1) 0 - z.getD (a_address N + i) 0) ^ 2) := by
    apply Finset.sum_congr rfl
    intro i _
    rw [getD_set_ne _ (show cte_address N ≠ delta_address N + i + 1 by
          simp only [cte_address, delta_address]; omega),
      getD_set_ne _ (show cte_address N ≠ delta_address N + i by
          simp only [cte_address, delta_address]; omega),
      getD_set_ne _ (show cte_address N ≠ a_address N + i + 1 by
          rw [ha]; simp only [cte_address]; omega),
      getD_set_ne _ (show cte_address N ≠ a_address N + i by
          rw [ha]; simp only [cte_address]; omega)]
  unfold costValue
  rw [t1, t2, t3]
  simp only [Nat.add_zero]
  rw [getD_set_self _ hlt,
    getD_set_ne _ (show cte_address N ≠ epsi_address N by
      simp only [cte_address, epsi_address]; omega),
    getD_set_ne _ (show cte_address N ≠ v_address N by
      simp only [cte_address, v_address]; omega)]
  simp only [ref_cte]
  ring

/-- A vector that satisfies the constraints for a state still does, for the
state with another `cte`, once its entry at `cte_address` is replaced by that
`cte`. -/
theorem satisfiesConstraints_set_cte (m : MathFns α) (junk : Nat → Nat → α) {N : Nat}
    (x y psi v cte cte' epsi c0 c1 c2 c3 : α) {z fg : List α}
    (hN : 2 ≤ N) (hz : z.length = n_vars N) (hfg : fg.length = 1 + 6 * N)
    (h : satisfiesConstraints m junk N [x, y, psi, v, cte, epsi] [c0, c1, c2, c3] fg z) :
    satisfiesConstraints m junk N [x, y, psi, v, cte', epsi] [c0, c1, c2, c3] fg
      (z.set (cte_address N) cte') := by
  have hN1 : 1 ≤ N := by omega
  have hn := n_vars_eq hN1
  have ha := a_address_eq hN1
  have hz' : (z.set (cte_address N) cte').length = n_vars N := by
    rw [List.length_set]; exact hz
  have hlt : cte_address N < z.length := by rw [hz, hn]; simp only [cte_address]; omega
  rw [satisfiesConstraints_iff_res m junk x y psi v cte epsi c0 c1 c2 c3 hN hz hfg] at h
  rw [satisfiesConstraints_iff_res m junk x y psi v cte' epsi c0 c1 c2 c3 hN hz' hfg]
  obtain ⟨⟨e0, e1, e2, e3, -, e5⟩, H⟩ := h
  constructor
  · rw [getD_set_self _ hlt]
    simp only [x_address, y_address, psi_address, v_address, cte_address, epsi_address]
      at e0 e1 e2 e3 e5 ⊢
    rw [getD_set_ne _ (by omega), getD_set_ne _ (by omega), getD_set_ne _ (by omega),
      getD_set_ne _ (by omega), getD_set_ne _ (by omega)]
    exact ⟨e0, e1, e2, e3, trivial, e5⟩
  · intro t ht1 ht
    have Ht := H t ht1 ht
    simp only [resX, resY, resPsi, resV, resCte, resEpsi, stateAt, ha, x_address, y_address,
      psi_address, v_address, cte_address, epsi_address, delta_address] at Ht ⊢
    rw [getD_set_ne _ (show 4 * N ≠ 0 + t by omega),
      getD_set_ne _ (show 4 * N ≠ 0 + (t - 1) by omega),
      getD_set_ne _ (show 4 * N ≠ N + t by omega),
      getD_set_ne _ (show 4 * N ≠ N + (t - 1) by omega),
      getD_set_ne _ (show 4 * N ≠ 2 * N + t by omega),
      getD_set_ne _ (show 4 * N ≠ 2 * N + (t - 1) by omega),
      getD_set_ne _ (show 4 * N ≠ 3 * N + t by omega),
      getD_set_ne _ (show 4 * N ≠ 3 * N + (t - 1) by omega),
      getD_set_ne _ (show 4 * N ≠ 4 * N + t by omega),
      getD_set_ne _ (show 4 * N ≠ 5 * N + t by omega),
      getD_set_ne _ (show 4 * N ≠ 5 * N + (t - 1) by omega),
      getD_set_ne _ (show 4 * N ≠ 6 * N + (t - 1) by omega),
      getD_set_ne _ (show 4 * N ≠ 7 * N - 1 + (t - 1) by omega)]
    exact Ht

/-- Replacing an entry by the value it already has changes nothing, and a
second replacement overrides the first. -/
theorem set_set_getD {l : List α} {i : Nat} (a : α) (h : i < l.length) :
    (l.set i a).set i (l.getD i 0) = l := by
  apply List.ext_getElem?
  intro j
  rw [List.set_set]
  by_cases e : i = j
  · subst e
    rw [List.getElem?_set_self h, getElem?_eq_some_getD h]
  · rw [List.getElem?_set_ne e]

end CteShift

/-! ## The failure semantics at work -/

/-- With a decision vector one entry short (13 instead of 14 at `N = 2`) the
read of `vars[a_address]` in the loop of lines 68-71 is out of range. -/
theorem FG_eval_short_vars :
    FG_eval (⟨id, id, id, 3⟩ : MathFns ℚ) [1, 0, 0, 0] 2 (List.replicate 13 7)
      [0, 1, 2, 3, 4, 5, 6, 7, 8, 9, 10, 11, 12] = none := by
  rfl

/-- With an `fg` vector one entry short (12 instead of 13 at `N = 2`) the
write of `fg[1 + epsi_address + 1]` at line 126 is out of range. -/
theorem FG_eval_short_fg :
    FG_eval (⟨id, id, id, 3⟩ : MathFns ℚ) [1, 0, 0, 0] 2 (List.replicate 12 7)
      [0, 1, 2, 3, 4, 5, 6, 7, 8, 9, 10, 11, 12, 13] = none := by
  rfl

/-! ## Claims -/

section Claims
variable {α : Type} [LinearOrderedField α]

theorem n_vars_eq_spec {N : Nat} (hN : 1 ≤ N) : n_vars N = 6 * N + 2 * (N - 1) := by
  simp only [n_vars, szSub_of_le hN]

/-- C1: for every horizon `N ≥ 2` and every solver whose result vector has
`6N + 2(N-1)` entries, whatever its status, `MPC::Solve` returns a sequence of
length `2 + 2(N-2)`: element 0 is `x*[delta_address]`, element 1 is
`x*[a_address]`, and elements `2+2i`, `3+2i` are `x*[x_address+i+1]`,
`x*[y_address+i+1]` for every `i` in `0..N-3`. -/
theorem C1_Solve_output_layout (m : MathFns α) (solver : SolveArgs α → SolveResult α)
    (junk : Nat → Nat → α) (N : Nat) (x y psi v cte epsi : α) (coeffs : List α)
    (hN : 2 ≤ N)
    (hlen : ∀ args, Solve_args m junk N [x, y, psi, v, cte, epsi] coeffs = some args →
      (solver args).x.length = 6 * N + 2 * (N - 1)) :
    ∃ args r, Solve_args m junk N [x, y, psi, v, cte, epsi] coeffs = some args ∧
      Solve m solver junk N [x, y, psi, v, cte, epsi] coeffs = some r ∧
      r.length = 2 + 2 * (N - 2) ∧
      r[0]? = (solver args).x[delta_address N]? ∧
      r[1]? = (solver args).x[a_address N]? ∧
      ∀ i, i < N - 2 →
        r[2 + 2 * i]? = (solver args).x[x_address N + i + 1]? ∧
        r[3 + 2 * i]? = (solver args).x[y_address N + i + 1]? := by
  have hN1 : 1 ≤ N := by omega
  obtain ⟨xi, xl, xu, gl, gu, hargs, -⟩ := Solve_args_run m junk hN1 x y psi v cte epsi coeffs
  have hx := hlen _ hargs
  have hx' : (solver ⟨xi, xl, xu, gl, gu, fun fg z => FG_eval m coeffs N fg z⟩).x.length
      = n_vars N := by rw [n_vars_eq_spec hN1]; exact hx
  obtain ⟨r, hr, hl, h0, h1, hp⟩ := Solve_result_run hN _ hx'
  have hx8 := hx'
  rw [n_vars_eq hN1] at hx8
  refine ⟨_, r, hargs, ?_, hl, ?_, ?_, ?_⟩
  · simp only [Solve, hargs, Option.bind_eq_bind, Option.some_bind, hr]
  · rw [h0, getElem?_eq_some_getD (by simp only [delta_address]; omega)]
  · rw [h1, getElem?_eq_some_getD (by rw [a_address_eq hN1]; omega)]
  · intro i hi
    obtain ⟨p1, p2⟩ := hp i hi
    rw [p1, p2, getElem?_eq_some_getD (by simp only [x_address]; omega),
      getElem?_eq_some_getD (by simp only [y_address]; omega)]
    exact ⟨rfl, rfl⟩

/-- C1 at `N = 3`, with a solver that returns the vector `0, 1, .., 21` and
reports a failure. -/
theorem C1_Solve_output_layout_witness :
    ∃ args r,
      Solve_args ⟨id, id, id, 3⟩ (fun _ _ => 7) 3 [0, 0, 0, 10, 1, (1 / 10 : ℚ)] [1, 0, 0, 0]
        = some args ∧
      Solve ⟨id, id, id, 3⟩ (fun _ => ⟨Status.error, (List.range 22).map Nat.cast, 0⟩)
        (fun _ _ => 7) 3 [0, 0, 0, 10, 1, (1 / 10 : ℚ)] [1, 0, 0, 0] = some r ∧
      r.length = 2 + 2 * (3 - 2) ∧
      r[0]? = ((List.range 22).map Nat.cast)[delta_address 3]? ∧
      r[1]? = ((List.range 22).map Nat.cast)[a_address 3]? ∧
      ∀ i, i < 3 - 2 →
        r[2 + 2 * i]? = ((List.range 22).map Nat.cast)[x_address 3 + i + 1]? ∧
        r[3 + 2 * i]? = ((List.range 22).map Nat.cast)[y_address 3 + i + 1]? :=
  C1_Solve_output_layout ⟨id, id, id, 3⟩
    (fun _ => ⟨Status.error, (List.range 22).map Nat.cast, 0⟩) (fun _ _ => 7) 3
    0 0 0 10 1 (1 / 10) [1, 0, 0, 0] (by decide) (fun _ _ => by simp)

/-- C2: for every `N ≥ 2` the eight offsets `0, N, 2N, 3N, 4N, 5N, 6N, 7N-1`,
with block lengths `N` (six state blocks) and `N-1` (two actuator blocks),
partition `[0, 6N+2(N-1))`: every index below `n_vars` lies in exactly one
block and no block index reaches `n_vars`. -/
theorem C2_layout_partition (N : Nat) (hN : 2 ≤ N) :
    (x_address N = 0 ∧ y_address N = N ∧ psi_address N = 2 * N ∧ v_address N = 3 * N ∧
      cte_address N = 4 * N ∧ epsi_address N = 5 * N ∧ delta_address N = 6 * N ∧
      a_address N = 7 * N - 1) ∧
    n_vars N = 6 * N + 2 * (N - 1) ∧
    (∀ k, k < 8 → blockLen N k = if k < 6 then N else N - 1) ∧
    (∀ i, i < n_vars N →
      ∃! k, k < 8 ∧ blockStart N k ≤ i ∧ i < blockStart N k + blockLen N k) ∧
    (∀ k, k < 8 → ∀ j, j < blockLen N k → blockStart N k + j < n_vars N) := by
  have hN1 : 1 ≤ N := by omega
  have ha := a_address_eq hN1
  have hn := n_vars_eq hN1
  have hs : szSub N 1 = N - 1 := szSub_of_le hN1
  refine ⟨⟨rfl, rfl, rfl, rfl, rfl, rfl, rfl, ha⟩, n_vars_eq_spec hN1, ?_, ?_, ?_⟩
  · intro k _
    simp only [blockLen, hs]
  · intro i hi
    rw [hn] at hi
    have key : ∀ k, k < 8 →
        ((blockStart N k ≤ i ∧ i < blockStart N k + blockLen N k) ↔
          (if k < 6 then k * N ≤ i ∧ i < k * N + N
           else if k = 6 then 6 * N ≤ i ∧ i < 7 * N - 1 else 7 * N - 1 ≤ i)) := by
      intro k hk
      interval_cases k <;>
        simp only [blockStart, blockLen, hs, ha, x_address, y_address, psi_address, v_address,
          cte_address, epsi_address, delta_address] <;>
        simp <;> omega
    have pick : ∃ k, k < 8 ∧ (if k < 6 then k * N ≤ i ∧ i < k * N + N
           else if k = 6 then 6 * N ≤ i ∧ i < 7 * N - 1 else 7 * N - 1 ≤ i) := by
      by_cases h0 : i < N
      · exact ⟨0, by omega, by simp; omega⟩
      by_cases h1 : i < 2 * N
      · exact ⟨1, by omega, by simp; omega⟩
      by_cases h2 : i < 3 * N
      · exact ⟨2, by omega, by simp; omega⟩
      by_cases h3 : i < 4 * N
      · exact ⟨3, by omega, by simp; omega⟩
      by_cases h4 : i < 5 * N
      · exact ⟨4, by omega, by simp; omega⟩
      by_cases h5 : i < 6 * N
      · exact ⟨5, by omega, by simp; omega⟩
      by_cases h6 : i < 7 * N - 1
      · exact ⟨6, by omega, by simp; omega⟩
      · exact ⟨7, by omega, by simp; omega⟩
    obtain ⟨k, hk, hin⟩ := pick
    refine ⟨k, ⟨hk, (key k hk).2 hin⟩, ?_⟩
    rintro k' ⟨hk', hin'⟩
    have hin'' := (key k' hk').1 hin'
    interval_cases k <;> interval_cases k' <;> simp at hin hin'' <;> omega
  · intro k hk j hj
    rw [hn]
    interval_cases k <;>
      simp only [blockStart, blockLen, hs, ha, x_address, y_address, psi_address, v_address,
        cte_address, epsi_address, delta_address] at hj ⊢ <;>
      simp at hj <;> omega

/-- C2 at the default horizon `N = 10`. -/
theorem C2_layout_partition_witness :
    (x_address 10 = 0 ∧ y_address 10 = 10 ∧ psi_address 10 = 2 * 10 ∧ v_address 10 = 3 * 10 ∧
      cte_address 10 = 4 * 10 ∧ epsi_address 10 = 5 * 10 ∧ delta_address 10 = 6 * 10 ∧
      a_address 10 = 7 * 10 - 1) ∧
    n_vars 10 = 6 * 10 + 2 * (10 - 1) ∧
    (∀ k, k < 8 → blockLen 10 k = if k < 6 then 10 else 10 - 1) ∧
    (∀ i, i < n_vars 10 →
      ∃! k, k < 8 ∧ blockStart 10 k ≤ i ∧ i < blockStart 10 k + blockLen 10 k) ∧
    (∀ k, k < 8 → ∀ j, j < blockLen 10 k → blockStart 10 k + j < n_vars 10) :=
  C2_layout_partition 10 (by decide)

/-- C3: for every `N ≥ 2` and every decision vector `z` of length
`6N + 2(N-1)`, the cost `fg[0]` computed by `FG_eval::operator()` is the sum
over `t = 0..N-1` of `1000 (cte_t - 0)² + 1000 (epsi_t - 0)² + 1 (v_t - 100)²`,
plus the sum over `t = 0..N-2` of `50 delta_t² + 50 a_t²`, plus the sum over
`t = 0..N-3` of `250000 (delta_{t+1} - delta_t)² + 5000 (a_{t+1} - a_t)²`, the
entries being read from `z` at the block offsets. -/
theorem C3_cost_formula (m : MathFns α) (c0 c1 c2 c3 : α) (N : Nat) (z fg : List α)
    (hN : 2 ≤ N) (hz : z.length = 6 * N + 2 * (N - 1)) (hfg : fg.length = 1 + 6 * N) :
    ∃ fg', FG_eval m [c0, c1, c2, c3] N fg z = some fg' ∧
      fg'[0]? = some
        ((∑ t ∈ Finset.range N,
            (1000 * (z.getD (cte_address N + t) 0 - 0) ^ 2
              + 1000 * (z.getD (epsi_address N + t) 0 - 0) ^ 2
              + 1 * (z.getD (v_address N + t) 0 - 100) ^ 2))
          + (∑ t ∈ Finset.range (N - 1),
            (50 * z.getD (delta_address N + t) 0 ^ 2 + 50 * z.getD (a_address N + t) 0 ^ 2))
          + (∑ t ∈ Finset.range (N - 2),
            (250000 * (z.getD (delta_address N + (t + 1)) 0 - z.getD (delta_address N + t) 0) ^ 2
              + 5000 * (z.getD (a_address N + (t + 1)) 0 - z.getD (a_address N + t) 0) ^ 2))) := by
  have hN1 : 1 ≤ N := by omega
  obtain ⟨fg', hrun, -, h0, -⟩ := FG_eval_run m c0 c1 c2 c3 hN
    (by rw [n_vars_eq_spec hN1]; exact hz) hfg
  refine ⟨fg', hrun, ?_⟩
  rw [h0]
  simp only [costValue, ref_cte, ref_epsi, ref_v, zero_add, one_mul, Nat.add_assoc]

/-- C3 at `N = 3`, on the vector whose state entries are `0` except
`cte = (1, 2, 0)` and whose actuators are `delta = (1, 3)`, `a = (0, 1)`:
the cost is `1000 (1 + 4) + 3 * 100² + 50 (1 + 9 + 0 + 1) + 250000 * 4 + 5000`. -/
theorem C3_cost_formula_witness :
    ∃ fg', FG_eval ⟨id, id, id, 3⟩ [1, 0, 0, 0] 3 (List.replicate 19 (7 : ℚ))
        [0, 0, 0, 0, 0, 0, 0, 0, 0, 0, 0, 0, 1, 2, 0, 0, 0, 0, 1, 3, 0, 1] = some fg' ∧
      fg'[0]? = some 1040550 := by
  obtain ⟨fg', h, h0⟩ := C3_cost_formula (⟨id, id, id, 3⟩ : MathFns ℚ) 1 0 0 0 3
    [0, 0, 0, 0, 0, 0, 0, 0, 0, 0, 0, 0, 1, 2, 0, 0, 0, 0, 1, 3, 0, 1] (List.replicate 19 7)
    (by decide) (by simp) (by simp)
  refine ⟨fg', h, ?_⟩
  rw [h0]
  have ea : a_address 3 = 20 := by decide
  simp [Finset.sum_range_succ, cte_address, epsi_address, v_address, delta_address, ea]
  norm_num

/-- C4: for every `N ≥ 2`, coefficients `c0..c3` and decision vector `z`, the
constraint part of `fg` produced by `FG_eval::operator()` is: at `t = 0` the
six entries are the six `t = 0` state entries of `z`; for every `t` in
`1..N-1` the six entries are actual minus predicted, with
`x_pred = x0 + v0 cos(psi0) dt`, `y_pred = y0 + v0 sin(psi0) dt`,
`psi_pred = psi0 - (v0/Lf) delta0 dt`, `v_pred = v0 + a0 dt`,
`cte_pred = (f0 - y0) + v0 sin(epsi0) dt`,
`epsi_pred = (psi0 - psides0) - (v0/Lf) delta0 dt`, where
`f0 = c0 + c1 x0 + c2 x0² + c3 x0³`, `psides0 = atan(c1 + 2 c2 x0 + 3 c3 x0²)`,
subscript 0 is step `t-1`, `dt = 0.1` and `Lf = 2.67`. -/
theorem C4_constraint_formula (m : MathFns α) (c0 c1 c2 c3 : α) (N : Nat) (z fg : List α)
    (hN : 2 ≤ N) (hz : z.length = 6 * N + 2 * (N - 1)) (hfg : fg.length = 1 + 6 * N) :
    ∃ fg', FG_eval m [c0, c1, c2, c3] N fg z = some fg' ∧ fg'.length = 1 + 6 * N ∧
      (fg'[1 + x_address N]? = some (z.getD (x_address N) 0) ∧
       fg'[1 + y_address N]? = some (z.getD (y_address N) 0) ∧
       fg'[1 + psi_address N]? = some (z.getD (psi_address N) 0) ∧
       fg'[1 + v_address N]? = some (z.getD (v_address N) 0) ∧
       fg'[1 + cte_address N]? = some (z.getD (cte_address N) 0) ∧
       fg'[1 + epsi_address N]? = some (z.getD (epsi_address N) 0)) ∧
      ∀ t, 1 ≤ t → t < N →
        ∀ x0 y0 psi0 v0 epsi0 delta0 a0 : α,
          x0 = z.getD (x_address N + (t - 1)) 0 → y0 = z.getD (y_address N + (t - 1)) 0 →
          psi0 = z.getD (psi_address N + (t - 1)) 0 → v0 = z.getD (v_address N + (t - 1)) 0 →
          epsi0 = z.getD (epsi_address N + (t - 1)) 0 →
          delta0 = z.getD (delta_address N + (t - 1)) 0 →
          a0 = z.getD (a_address N + (t - 1)) 0 →
          fg'[1 + x_address N + t]? = some
            (z.getD (x_address N + t) 0 - (x0 + v0 * m.cos psi0 * (1 / 10))) ∧
          fg'[1 + y_address N + t]? = some
            (z.getD (y_address N + t) 0 - (y0 + v0 * m.sin psi0 * (1 / 10))) ∧
          fg'[1 + psi_address N + t]? = some
            (z.getD (psi_address N + t) 0 - (psi0 - (v0 / (267 / 100)) * delta0 * (1 / 10))) ∧
          fg'[1 + v_address N + t]? = some
            (z.getD (v_address N + t) 0 - (v0 + a0 * (1 / 10))) ∧
          fg'[1 + cte_address N + t]? = some
            (z.getD (cte_address N + t) 0
              - (((c0 + c1 * x0 + c2 * x0 ^ 2 + c3 * x0 ^ 3) - y0)
                  + v0 * m.sin epsi0 * (1 / 10))) ∧
          fg'[1 + epsi_address N + t]? = some
            (z.getD (epsi_address N + t) 0
              - ((psi0 - m.atan (c1 + 2 * c2 * x0 + 3 * c3 * x0 ^ 2))
                  - (v0 / (267 / 100)) * delta0 * (1 / 10))) := by
  have hN1 : 1 ≤ N := by omega
  obtain ⟨fg', hrun, hl, -, hg⟩ := FG_eval_run m c0 c1 c2 c3 hN
    (by rw [n_vars_eq_spec hN1]; exact hz) hfg
  have hdt : (dt : α) = 1 / 10 := by norm_num [dt]
  refine ⟨fg', hrun, hl, ?_, ?_⟩
  · have h := fun b hb => hg b hb 0 (by omega)
    have e0 := h 0 (by omega)
    have e1 := h 1 (by omega)
    have e2 := h 2 (by omega)
    have e3 := h 3 (by omega)
    have e4 := h 4 (by omega)
    have e5 := h 5 (by omega)
    simp only [gEntry, if_true, Nat.add_zero, Nat.zero_mul, Nat.one_mul] at e0 e1 e2 e3 e4 e5
    exact ⟨e0, e1, e2, e3, e4, e5⟩
  · intro t ht1 ht x0 y0 psi0 v0 epsi0 delta0 a0 hx0 hy0 hpsi0 hv0 hepsi0 hdelta0 ha0
    have ht0 : t ≠ 0 := by omega
    have h := fun b hb => hg b hb t ht
    have e0 := h 0 (by omega)
    have e1 := h 1 (by omega)
    have e2 := h 2 (by omega)
    have e3 := h 3 (by omega)
    have e4 := h 4 (by omega)
    have e5 := h 5 (by omega)
    simp only [gEntry, ht0, if_false, Nat.zero_mul, Nat.one_mul, resX, resY, resPsi, resV,
      resCte, resEpsi, stateAt, f0Val, psides0Val, hdt, Lf, ← hx0, ← hy0, ← hpsi0, ← hv0,
      ← hepsi0, ← hdelta0, ← ha0] at e0 e1 e2 e3 e4 e5
    exact ⟨e0, e1, e2, e3, e4, e5⟩

/-- C4 at `N = 2` on the vector `0, 1, .., 13`, with `coeffs = (1, 0, 0, 0)`
and library functions `cos = 1`, `sin = 0`, `atan = 0`. -/
theorem C4_constraint_formula_witness :
    ∃ fg' : List ℚ, FG_eval ⟨fun _ => 1, fun _ => 0, fun _ => 0, 3⟩ [1, 0, 0, 0] 2
        (List.replicate 13 (7 : ℚ)) [0, 1, 2, 3, 4, 5, 6, 7, 8, 9, 10, 11, 12, 13] = some fg' ∧
      fg'.length = 13 ∧
      (fg'[1]? = some 0 ∧ fg'[3]? = some 2 ∧ fg'[5]? = some 4 ∧ fg'[7]? = some 6 ∧
        fg'[9]? = some 8 ∧ fg'[11]? = some 10) ∧
      (fg'[2]? = some (2 / 5) ∧ fg'[4]? = some 1 ∧ fg'[6]? = some (329 / 89) ∧
        fg'[8]? = some (-(3 / 10) : ℚ) ∧ fg'[10]? = some 10 ∧ fg'[12]? = some (863 / 89)) := by
  obtain ⟨fg', h, hl, h0, h1⟩ := C4_constraint_formula
    (⟨fun _ => 1, fun _ => 0, fun _ => 0, 3⟩ : MathFns ℚ) 1 0 0 0 2
    [0, 1, 2, 3, 4, 5, 6, 7, 8, 9, 10, 11, 12, 13] (List.replicate 13 7)
    (by decide) (by simp) (by simp)
  have ea : a_address 2 = 13 := by decide
  have h1' := h1 1 (by decide) (by decide) _ _ _ _ _ _ _ rfl rfl rfl rfl rfl rfl rfl
  simp only [x_address, y_address, psi_address, v_address, cte_address, epsi_address,
    delta_address, ea] at h0 h1'
  norm_num at h0 h1'
  exact ⟨fg', h, hl, h0, h1'⟩

/-- C5: for every `N ≥ 2` the per-variable bounds built by `MPC::Solve` are:
lower `-1e19` and upper `+1e19` at every index in `[0, 6N)`; lower
`-25*pi/180` and upper `+25*pi/180` at the `N-1` steering indices
`[6N, 7N-1)`; lower `-1` and upper `+1` at the `N-1` acceleration indices
`[7N-1, 8N-2)`; both vectors have `n_vars` entries, every one of them
written (nothing of the allocated content is left). -/
theorem C5_variable_bounds (m : MathFns α) (junk : Nat → Nat → α) (N : Nat)
    (x y psi v cte epsi : α) (coeffs : List α) (hN : 2 ≤ N) :
    ∃ args, Solve_args m junk N [x, y, psi, v, cte, epsi] coeffs = some args ∧
      args.xl.length = n_vars N ∧ args.xu.length = n_vars N ∧
      (∀ j, j < 6 * N → args.xl[j]? = some (-(10 ^ 19)) ∧ args.xu[j]? = some (10 ^ 19)) ∧
      (∀ j, 6 * N ≤ j → j < 7 * N - 1 →
        args.xl[j]? = some (-25 * m.pi / 180) ∧ args.xu[j]? = some (25 * m.pi / 180)) ∧
      (∀ j, 7 * N - 1 ≤ j → j < 8 * N - 2 → args.xl[j]? = some (-1) ∧ args.xu[j]? = some 1) ∧
      (∀ j, j < n_vars N → j < 6 * N ∨ (6 * N ≤ j ∧ j < 7 * N - 1)
        ∨ (7 * N - 1 ≤ j ∧ j < 8 * N - 2)) ∧
      (7 * N - 1 - 6 * N = N - 1 ∧ 8 * N - 2 - (7 * N - 1) = N - 1) ∧
      ∀ junk' args', Solve_args m junk' N [x, y, psi, v, cte, epsi] coeffs = some args' →
        args'.xl = args.xl ∧ args'.xu = args.xu := by
  have hN1 : 1 ≤ N := by omega
  have hn := n_vars_eq hN1
  obtain ⟨xi, xl, xu, gl, gu, hargs, hvb, -, -⟩ :=
    Solve_args_run m junk hN1 x y psi v cte epsi coeffs
  obtain ⟨lb, ub, hb, hl, hu, hlo, hhi⟩ := varBounds_run m (junk 1) (junk 2) hN1
  rw [hvb] at hb
  obtain ⟨rfl, rfl⟩ : xl = lb ∧ xu = ub := by simpa using hb
  refine ⟨_, hargs, hl, hu, ?_, ?_, ?_, ?_, ⟨by omega, by omega⟩, ?_⟩
  · intro j hj
    exact ⟨by rw [hlo j, if_pos hj], by rw [hhi j, if_pos hj]⟩
  · intro j h1 h2
    exact ⟨by rw [hlo j, if_neg (by omega), if_pos h2],
      by rw [hhi j, if_neg (by omega), if_pos h2]⟩
  · intro j h1 h2
    exact ⟨by rw [hlo j, if_neg (by omega), if_neg (by omega), if_pos h2],
      by rw [hhi j, if_neg (by omega), if_neg (by omega), if_pos h2]⟩
  · intro j hj
    omega
  · intro junk' args' hargs'
    obtain ⟨xi', xl', xu', gl', gu', hargs2, hvb', -, -⟩ :=
      Solve_args_run m junk' hN1 x y psi v cte epsi coeffs
    obtain ⟨lb', ub', hb', -, -, hlo', hhi'⟩ := varBounds_run m (junk' 1) (junk' 2) hN1
    rw [hvb'] at hb'
    obtain ⟨rfl, rfl⟩ : xl' = lb' ∧ xu' = ub' := by simpa using hb'
    rw [hargs2] at hargs'
    obtain rfl := Option.some.inj hargs'
    exact ⟨List.ext_getElem? (fun j => by rw [hlo' j, hlo j]),
      List.ext_getElem? (fun j => by rw [hhi' j, hhi j])⟩

/-- C5 at `N = 2`: state bounds at index 11, steering bounds at index 12,
acceleration bounds at index 13. -/
theorem C5_variable_bounds_witness :
    ∃ args, Solve_args ⟨id, id, id, 3⟩ (fun _ _ => 7) 2 [0, 0, 0, 10, 1, (1 / 10 : ℚ)]
        [1, 0, 0, 0] = some args ∧
      args.xl.length = 14 ∧ args.xu.length = 14 ∧
      (args.xl[11]? = some (-(10 ^ 19) : ℚ) ∧ args.xu[11]? = some (10 ^ 19)) ∧
      (args.xl[12]? = some (-25 * 3 / 180 : ℚ) ∧ args.xu[12]? = some (25 * 3 / 180)) ∧
      (args.xl[13]? = some (-1 : ℚ) ∧ args.xu[13]? = some 1) := by
  obtain ⟨args, h, hl, hu, h1, h2, h3, -⟩ := C5_variable_bounds
    (⟨id, id, id, 3⟩ : MathFns ℚ) (fun _ _ => 7) 2 0 0 0 10 1 (1 / 10) [1, 0, 0, 0] (by decide)
  exact ⟨args, h, hl, hu, h1 11 (by decide), h2 12 (by decide) (by decide),
    h3 13 (by decide) (by decide)⟩

/-- C6: for every `N ≥ 2` and every input state `(x, y, psi, v, cte, epsi)`
the constraint bounds built by `MPC::Solve` have length `6N`, the lower bound
equals the upper bound everywhere, at the six `t = 0` positions both bounds
are the corresponding component of the state, and at every other position
both bounds are 0. -/
theorem C6_constraint_bounds (m : MathFns α) (junk : Nat → Nat → α) (N : Nat)
    (x y psi v cte epsi : α) (coeffs : List α) (hN : 2 ≤ N) :
    ∃ args, Solve_args m junk N [x, y, psi, v, cte, epsi] coeffs = some args ∧
      args.gl.length = 6 * N ∧ args.gu.length = 6 * N ∧ args.gl = args.gu ∧
      (args.gl[x_address N]? = some x ∧ args.gl[y_address N]? = some y ∧
        args.gl[psi_address N]? = some psi ∧ args.gl[v_address N]? = some v ∧
        args.gl[cte_address N]? = some cte ∧ args.gl[epsi_address N]? = some epsi) ∧
      (args.gu[x_address N]? = some x ∧ args.gu[y_address N]? = some y ∧
        args.gu[psi_address N]? = some psi ∧ args.gu[v_address N]? = some v ∧
        args.gu[cte_address N]? = some cte ∧ args.gu[epsi_address N]? = some epsi) ∧
      ∀ k, k < 6 * N → k ≠ x_address N → k ≠ y_address N → k ≠ psi_address N →
        k ≠ v_address N → k ≠ cte_address N → k ≠ epsi_address N →
        args.gl[k]? = some 0 ∧ args.gu[k]? = some 0 := by
  have hN1 : 1 ≤ N := by omega
  obtain ⟨xi, xl, xu, gl, gu, hargs, -, hcb, -⟩ :=
    Solve_args_run m junk hN1 x y psi v cte epsi coeffs
  obtain ⟨lb, ub, hb, hl, hu, hlo, hhi⟩ := constraintBounds_run (junk 3) (junk 4) hN1
    (⟨x, y, psi, v, cte, epsi⟩ : StateAt α)
  rw [hcb] at hb
  obtain ⟨rfl, rfl⟩ : gl = lb ∧ gu = ub := by simpa using hb
  have pin : ∀ {w : List α}, (∀ b, b < 6 → ∀ t, t < N →
        w[b * N + t]? = some (if t = 0 then (⟨x, y, psi, v, cte, epsi⟩ : StateAt α).comp b else 0)) →
      (w[x_address N]? = some x ∧ w[y_address N]? = some y ∧
        w[psi_address N]? = some psi ∧ w[v_address N]? = some v ∧
        w[cte_address N]? = some cte ∧ w[epsi_address N]? = some epsi) := by
    intro w hw
    have h := fun b hb => hw b hb 0 (by omega)
    have e0 := h 0 (by omega)
    have e1 := h 1 (by omega)
    have e2 := h 2 (by omega)
    have e3 := h 3 (by omega)
    have e4 := h 4 (by omega)
    have e5 := h 5 (by omega)
    simp only [if_true, Nat.add_zero, Nat.zero_mul, Nat.one_mul, StateAt.comp]
      at e0 e1 e2 e3 e4 e5
    exact ⟨e0, e1, e2, e3, e4, e5⟩
  have rest : ∀ {w : List α}, (∀ b, b < 6 → ∀ t, t < N →
        w[b * N + t]? = some (if t = 0 then (⟨x, y, psi, v, cte, epsi⟩ : StateAt α).comp b else 0)) →
      ∀ k, k < 6 * N → k ≠ x_address N → k ≠ y_address N → k ≠ psi_address N →
        k ≠ v_address N → k ≠ cte_address N → k ≠ epsi_address N → w[k]? = some 0 := by
    intro w hw k hk n0 n1 n2 n3 n4 n5
    obtain ⟨b, t, hb6, ht, rfl⟩ := index_block_step hN1 k hk
    have ht0 : t ≠ 0 := by
      rintro rfl
      simp only [x_address, y_address, psi_address, v_address, cte_address, epsi_address]
        at n0 n1 n2 n3 n4 n5
      interval_cases b <;> omega
    rw [hw b hb6 t ht, if_neg ht0]
  refine ⟨_, hargs, hl, hu, ?_, pin hlo, pin hhi, ?_⟩
  · apply List.ext_getElem?
    intro k
    by_cases hk : k < 6 * N
    · obtain ⟨b, t, hb6, ht, rfl⟩ := index_block_step hN1 k hk
      rw [hlo b hb6 t ht, hhi b hb6 t ht]
    · rw [List.getElem?_eq_none (show gl.length ≤ k by omega),
        List.getElem?_eq_none (show gu.length ≤ k by omega)]
  · intro k hk n0 n1 n2 n3 n4 n5
    exact ⟨rest hlo k hk n0 n1 n2 n3 n4 n5, rest hhi k hk n0 n1 n2 n3 n4 n5⟩

/-- C6 at `N = 2` for the state `(0, 0, 0, 10, 1, 1/10)`: the pinned entry
of `v` at index 6 and the zero entry at index 7. -/
theorem C6_constraint_bounds_witness :
    ∃ args, Solve_args ⟨id, id, id, 3⟩ (fun _ _ => 7) 2 [0, 0, 0, 10, 1, (1 / 10 : ℚ)]
        [1, 0, 0, 0] = some args ∧
      args.gl.length = 12 ∧ args.gu.length = 12 ∧ args.gl = args.gu ∧
      args.gl[6]? = some (10 : ℚ) ∧ args.gu[6]? = some (10 : ℚ) ∧
      args.gl[7]? = some (0 : ℚ) ∧ args.gu[7]? = some (0 : ℚ) := by
  obtain ⟨args, h, hl, hu, he, h1, h2, h3⟩ := C6_constraint_bounds
    (⟨id, id, id, 3⟩ : MathFns ℚ) (fun _ _ => 7) 2 0 0 0 10 1 (1 / 10) [1, 0, 0, 0] (by decide)
  have h7 := h3 7 (by decide) (by decide) (by decide) (by decide) (by decide) (by decide)
    (by decide)
  exact ⟨args, h, hl, hu, he, h1.2.2.2.1, h2.2.2.2.1, h7.1, h7.2⟩

/-- C7: for every `N ≥ 2`, state, coeffs and decision vector `z`, the
constraint vector of `FG_eval` (`g[k] = fg[1+k]`, evaluated through the
functor `MPC::Solve` hands to the solver) lies within the constraint bounds
built by `MPC::Solve` for that state if and only if the six `t = 0` state
entries of `z` equal the state and, for every `t` in `1..N-1`, each of the
six state entries of `z` at step `t` equals the kinematic-model prediction
computed from the entries of `z` at step `t-1`. -/
theorem C7_constraints_iff_dynamics (m : MathFns α) (junk : Nat → Nat → α) (N : Nat)
    (x y psi v cte epsi c0 c1 c2 c3 : α) (z fg : List α)
    (hN : 2 ≤ N) (hz : z.length = 6 * N + 2 * (N - 1)) (hfg : fg.length = 1 + 6 * N) :
    ∃ args fg', Solve_args m junk N [x, y, psi, v, cte, epsi] [c0, c1, c2, c3] = some args ∧
      args.fg_eval fg z = some fg' ∧
      (withinConstraintBounds args.gl args.gu fg' ↔
        ((z.getD (x_address N) 0 = x ∧ z.getD (y_address N) 0 = y ∧
            z.getD (psi_address N) 0 = psi ∧ z.getD (v_address N) 0 = v ∧
            z.getD (cte_address N) 0 = cte ∧ z.getD (epsi_address N) 0 = epsi) ∧
          ∀ t, 1 ≤ t → t < N →
            ∀ x0 y0 psi0 v0 epsi0 delta0 a0 : α,
              x0 = z.getD (x_address N + (t - 1)) 0 → y0 = z.getD (y_address N + (t - 1)) 0 →
              psi0 = z.getD (psi_address N + (t - 1)) 0 →
              v0 = z.getD (v_address N + (t - 1)) 0 →
              epsi0 = z.getD (epsi_address N + (t - 1)) 0 →
              delta0 = z.getD (delta_address N + (t - 1)) 0 →
              a0 = z.getD (a_address N + (t - 1)) 0 →
              z.getD (x_address N + t) 0 = x0 + v0 * m.cos psi0 * (1 / 10) ∧
              z.getD (y_address N + t) 0 = y0 + v0 * m.sin psi0 * (1 / 10) ∧
              z.getD (psi_address N + t) 0 = psi0 - (v0 / (267 / 100)) * delta0 * (1 / 10) ∧
              z.getD (v_address N + t) 0 = v0 + a0 * (1 / 10) ∧
              z.getD (cte_address N + t) 0
                = ((c0 + c1 * x0 + c2 * x0 ^ 2 + c3 * x0 ^ 3) - y0)
                    + v0 * m.sin epsi0 * (1 / 10) ∧
              z.getD (epsi_address N + t) 0
                = (psi0 - m.atan (c1 + 2 * c2 * x0 + 3 * c3 * x0 ^ 2))
                    - (v0 / (267 / 100)) * delta0 * (1 / 10))) := by
  have hN1 : 1 ≤ N := by omega
  obtain ⟨xi, xl, xu, gl, gu, hargs, -, hcb, -⟩ :=
    Solve_args_run m junk hN1 x y psi v cte epsi [c0, c1, c2, c3]
  obtain ⟨lb, ub, hb, hl, hu, hlo, hhi⟩ := constraintBounds_run (junk 3) (junk 4) hN1
    (⟨x, y, psi, v, cte, epsi⟩ : StateAt α)
  rw [hcb] at hb
  obtain ⟨rfl, rfl⟩ : gl = lb ∧ gu = ub := by simpa using hb
  obtain ⟨fg', hrun, -, -, hg⟩ := FG_eval_run m c0 c1 c2 c3 hN
    (by rw [n_vars_eq_spec hN1]; exact hz) hfg
  have hdt : (dt : α) = 1 / 10 := by norm_num [dt]
  refine ⟨_, fg', hargs, hrun, ?_⟩
  show withinConstraintBounds gl gu fg' ↔ _
  rw [within_iff_entries _ _ hl hlo hhi hg, entries_iff_explicit]
  simp only [resX, resY, resPsi, resV, resCte, resEpsi, stateAt, f0Val, psides0Val, hdt, Lf,
    sub_eq_zero]
  constructor
  · rintro ⟨H0, H1⟩
    refine ⟨H0 hN1, ?_⟩
    intro t ht1 ht x0 y0 psi0 v0 epsi0 delta0 a0 hx0 hy0 hpsi0 hv0 hepsi0 hdelta0 ha0
    subst hx0 hy0 hpsi0 hv0 hepsi0 hdelta0 ha0
    exact H1 t ht1 ht
  · rintro ⟨H0, H1⟩
    exact ⟨fun _ => H0, fun t ht1 ht => H1 t ht1 ht _ _ _ _ _ _ _ rfl rfl rfl rfl rfl rfl rfl⟩

/-- C7 at `N = 2`, state `(0, 0, 0, 10, 1, 1/10)`, coeffs `(1, 0, 0, 0)` and
library functions `cos = 1`, `sin = 0`, `atan = 0`: the vector
`x = (0, 1)`, `y = (0, 0)`, `psi = (0, 0)`, `v = (10, 10)`, `cte = (1, 1)`,
`epsi = (1/10, 0)`, `delta = 0`, `a = 0` follows the model from that state, so
its constraint values lie within the bounds. -/
theorem C7_constraints_iff_dynamics_witness :
    ∃ args fg', Solve_args ⟨fun _ => 1, fun _ => 0, fun _ => 0, 3⟩ (fun _ _ => 7) 2
        [0, 0, 0, 10, 1, (1 / 10 : ℚ)] [1, 0, 0, 0] = some args ∧
      args.fg_eval (List.replicate 13 7) [0, 1, 0, 0, 0, 0, 10, 10, 1, 1, 1 / 10, 0, 0, 0]
        = some fg' ∧
      withinConstraintBounds args.gl args.gu fg' := by
  obtain ⟨args, fg', h1, h2, h3⟩ := C7_constraints_iff_dynamics
    (⟨fun _ => 1, fun _ => 0, fun _ => 0, 3⟩ : MathFns ℚ) (fun _ _ => 7) 2
    0 0 0 10 1 (1 / 10) 1 0 0 0 [0, 1, 0, 0, 0, 0, 10, 10, 1, 1, 1 / 10, 0, 0, 0]
    (List.replicate 13 7) (by decide) (by simp) (by simp)
  refine ⟨args, fg', h1, h2, h3.2 ⟨?_, ?_⟩⟩
  · simp [x_address, y_address, psi_address, v_address, cte_address, epsi_address]
  · intro t ht1 ht x0 y0 psi0 v0 epsi0 delta0 a0 hx0 hy0 hpsi0 hv0 hepsi0 hdelta0 ha0
    have ht : t = 1 := by omega
    have ea : a_address 2 = 13 := by decide
    subst ht
    simp [x_address, y_address, psi_address, v_address, cte_address, epsi_address,
      delta_address, ea] at hx0 hy0 hpsi0 hv0 hepsi0 hdelta0 ha0 ⊢
    subst hx0 hy0 hpsi0 hv0 hepsi0 hdelta0 ha0
    norm_num

/-- C8: for every `N ≥ 2` and every solver result vector that satisfies the
per-variable bounds built by `MPC::Solve`, every steering entry
`x*[delta_address + t]` (`t` in `0..N-2`) lies in `[-25*pi/180, 25*pi/180]`
and every acceleration entry `x*[a_address + t]` lies in `[-1, 1]`; hence
the steering command (element 0) and the acceleration command (element 1)
returned by `MPC::Solve` lie in those intervals. -/
theorem C8_actuators_within_bounds (m : MathFns α) (solver : SolveArgs α → SolveResult α)
    (junk : Nat → Nat → α) (N : Nat) (x y psi v cte epsi : α) (coeffs : List α)
    (hN : 2 ≤ N)
    (hsol : ∀ args, Solve_args m junk N [x, y, psi, v, cte, epsi] coeffs = some args →
      (solver args).x.length = 6 * N + 2 * (N - 1) ∧
        withinVarBounds args.xl args.xu (solver args).x) :
    ∃ args r, Solve_args m junk N [x, y, psi, v, cte, epsi] coeffs = some args ∧
      Solve m solver junk N [x, y, psi, v, cte, epsi] coeffs = some r ∧
      (∀ t, t < N - 1 →
        (-25 * m.pi / 180 ≤ (solver args).x.getD (delta_address N + t) 0 ∧
          (solver args).x.getD (delta_address N + t) 0 ≤ 25 * m.pi / 180) ∧
        (-1 ≤ (solver args).x.getD (a_address N + t) 0 ∧
          (solver args).x.getD (a_address N + t) 0 ≤ 1)) ∧
      ∃ steer throttle : α, r[0]? = some steer ∧ r[1]? = some throttle ∧
        (-25 * m.pi / 180 ≤ steer ∧ steer ≤ 25 * m.pi / 180) ∧
        (-1 ≤ throttle ∧ throttle ≤ 1) := by
  have hN1 : 1 ≤ N := by omega
  obtain ⟨xi, xl, xu, gl, gu, hargs, hvb, -, -⟩ :=
    Solve_args_run m junk hN1 x y psi v cte epsi coeffs
  obtain ⟨lb, ub, hb, -, -, hlo, hhi⟩ := varBounds_run m (junk 1) (junk 2) hN1
  rw [hvb] at hb
  obtain ⟨rfl, rfl⟩ : xl = lb ∧ xu = ub := by simpa using hb
  obtain ⟨hlen, hwithin⟩ := hsol _ hargs
  have hx' : (solver ⟨xi, xl, xu, gl, gu, fun fg z => FG_eval m coeffs N fg z⟩).x.length
      = n_vars N := by rw [n_vars_eq_spec hN1]; exact hlen
  obtain ⟨r, hr, -, h0, h1, -⟩ := Solve_result_run hN _ hx'
  have hx8 := hx'
  rw [n_vars_eq hN1] at hx8
  have key : ∀ t, t < N - 1 →
      (-25 * m.pi / 180 ≤
          (solver ⟨xi, xl, xu, gl, gu, fun fg z => FG_eval m coeffs N fg z⟩).x.getD
            (delta_address N + t) 0 ∧
        (solver ⟨xi, xl, xu, gl, gu, fun fg z => FG_eval m coeffs N fg z⟩).x.getD
            (delta_address N + t) 0 ≤ 25 * m.pi / 180) ∧
      (-1 ≤ (solver ⟨xi, xl, xu, gl, gu, fun fg z => FG_eval m coeffs N fg z⟩).x.getD
            (a_address N + t) 0 ∧
        (solver ⟨xi, xl, xu, gl, gu, fun fg z => FG_eval m coeffs N fg z⟩).x.getD
            (a_address N + t) 0 ≤ 1) := by
    intro t ht
    have d := hwithin (delta_address N + t) (by simp only [delta_address]; omega)
    have a := hwithin (a_address N + t) (by rw [a_address_eq hN1]; omega)
    have dl : xl.getD (delta_address N + t) 0 = -25 * m.pi / 180 :=
      getD_eq_of_getElem? (by
        rw [hlo]; simp only [delta_address]
        rw [if_neg (by omega), if_pos (by omega)])
    have du : xu.getD (delta_address N + t) 0 = 25 * m.pi / 180 :=
      getD_eq_of_getElem? (by
        rw [hhi]; simp only [delta_address]
        rw [if_neg (by omega), if_pos (by omega)])
    have al : xl.getD (a_address N + t) 0 = -1 :=
      getD_eq_of_getElem? (by
        rw [hlo, a_address_eq hN1]
        rw [if_neg (by omega), if_neg (by omega), if_pos (by omega)])
    have au : xu.getD (a_address N + t) 0 = 1 :=
      getD_eq_of_getElem? (by
        rw [hhi, a_address_eq hN1]
        rw [if_neg (by omega), if_neg (by omega), if_pos (by omega)])
    rw [dl, du] at d
    rw [al, au] at a
    exact ⟨d, a⟩
  refine ⟨_, r, hargs, ?_, key, _, _, h0, h1, ?_, ?_⟩
  · simp only [Solve, hargs, Option.bind_eq_bind, Option.some_bind, hr]
  · exact (key 0 (by omega)).1
  · exact (key 0 (by omega)).2

/-- C8 at `N = 2`, for a solver that returns steering `1/4` and acceleration
`-1/2` (with `M_PI` taken as `3`, the steering bound is `5/12`). -/
theorem C8_actuators_within_bounds_witness :
    ∃ r : List ℚ, Solve ⟨id, id, id, 3⟩
        (fun _ => ⟨Status.success, [0, 1, 0, 0, 0, 0, 10, 10, 1, 1, 1 / 10, 0, 1 / 4, -1 / 2], 0⟩)
        (fun _ _ => 7) 2 [0, 0, 0, 10, 1, 1 / 10] [1, 0, 0, 0] = some r ∧
      ∃ steer throttle : ℚ, r[0]? = some steer ∧ r[1]? = some throttle ∧
        (-25 * 3 / 180 ≤ steer ∧ steer ≤ 25 * 3 / 180) ∧ (-1 ≤ throttle ∧ throttle ≤ 1) := by
  obtain ⟨args, r, -, hr, -, hcmd⟩ := C8_actuators_within_bounds
    (⟨id, id, id, 3⟩ : MathFns ℚ)
    (fun _ => ⟨Status.success, [0, 1, 0, 0, 0, 0, 10, 10, 1, 1, 1 / 10, 0, 1 / 4, -1 / 2], 0⟩)
    (fun _ _ => 7) 2 0 0 0 10 1 (1 / 10) [1, 0, 0, 0] (by decide)
    (by
      intro args hargs
      obtain ⟨a, ha, hlo, hhi⟩ := Solve_args_var_bounds
        (⟨id, id, id, 3⟩ : MathFns ℚ) (fun _ _ => 7) (show 1 ≤ 2 by decide)
        0 0 0 10 1 (1 / 10) [1, 0, 0, 0]
      rw [hargs] at ha
      obtain rfl := Option.some.inj ha
      refine ⟨by simp, ?_⟩
      intro j hj
      simp only [List.length_cons, List.length_nil] at hj
      have hl := hlo j
      have hu := hhi j
      interval_cases j <;>
        (norm_num at hl hu
         rw [getD_eq_of_getElem? hl, getD_eq_of_getElem? hu]
         norm_num))
  exact ⟨r, hr, hcmd⟩

/-- C9, as stated, fails: at `N = 3` a solver result with status `success`
and one with status `infeasible`, both with the vector `0, 1, .., 21`, make
`MPC::Solve` return the same value `(18, 20, 1, 4)`. -/
theorem C9_status_not_exposed_counterexample :
    Status.success ≠ Status.infeasible ∧
    Solve ⟨id, id, id, 3⟩
        (fun _ => ⟨Status.success,
          [0, 1, 2, 3, 4, 5, 6, 7, 8, 9, 10, 11, 12, 13, 14, 15, 16, 17, 18, 19, 20, 21], 0⟩)
        (fun _ _ => 7) 3 [0, 0, 0, 10, 1, (1 / 10 : ℚ)] [1, 0, 0, 0] = some [18, 20, 1, 4] ∧
    Solve ⟨id, id, id, 3⟩
        (fun _ => ⟨Status.infeasible,
          [0, 1, 2, 3, 4, 5, 6, 7, 8, 9, 10, 11, 12, 13, 14, 15, 16, 17, 18, 19, 20, 21], 0⟩)
        (fun _ _ => 7) 3 [0, 0, 0, 10, 1, (1 / 10 : ℚ)] [1, 0, 0, 0] = some [18, 20, 1, 4] := by
  refine ⟨by decide, ?_, ?_⟩
  · rw [Solve_const _ _ _ (by decide)]; rfl
  · rw [Solve_const _ _ _ (by decide)]; rfl

/-- C9, amended: what `MPC::Solve` returns is determined by the optimized
vector alone. Two solvers whose results carry the same vector, whatever
their status, make `MPC::Solve` return the same value: the status is
compared with `success` into the local `ok`, which is never used. -/
theorem C9_Solve_ignores_status (m : MathFns α) (solver1 solver2 : SolveArgs α → SolveResult α)
    (junk : Nat → Nat → α) (N : Nat) (state coeffs : List α)
    (h : ∀ args, (solver1 args).x = (solver2 args).x) :
    Solve m solver1 junk N state coeffs = Solve m solver2 junk N state coeffs :=
  Solve_of_x_eq m solver1 solver2 junk N state coeffs h

/-- C9 amended, at `N = 2`: a solver reporting `success` and one reporting
`timeout` with the same vector. -/
theorem C9_Solve_ignores_status_witness :
    Solve ⟨id, id, id, 3⟩
        (fun _ => ⟨Status.success, [0, 1, 0, 0, 0, 0, 10, 10, 1, 1, 1 / 10, 0, 1 / 4, -1 / 2], 0⟩)
        (fun _ _ => 7) 2 [0, 0, 0, 10, 1, (1 / 10 : ℚ)] [1, 0, 0, 0]
      = Solve ⟨id, id, id, 3⟩
        (fun _ => ⟨Status.timeout, [0, 1, 0, 0, 0, 0, 10, 10, 1, 1, 1 / 10, 0, 1 / 4, -1 / 2], 5⟩)
        (fun _ _ => 7) 2 [0, 0, 0, 10, 1, (1 / 10 : ℚ)] [1, 0, 0, 0] :=
  C9_Solve_ignores_status _ _ _ _ _ _ _ (fun _ => rfl)

/-- C10: for every `N ≥ 2`, with a decision vector of length `6N + 2(N-1)`
and an `fg` vector of length `1 + 6N`, every index read from `vars` and every
index written to `fg` by `FG_eval::operator()` is in range (the run returns
a value; an access out of range makes it return `none`); for `N = 2` the
dynamics loop executes exactly one step (`t = 1`) and the actuator-smoothness
loop executes no iteration, so the cost has no smoothness term. -/
theorem C10_index_safety (m : MathFns α) (c0 c1 c2 c3 : α) (N : Nat) (z fg : List α)
    (hN : 2 ≤ N) (hz : z.length = 6 * N + 2 * (N - 1)) (hfg : fg.length = 1 + 6 * N) :
    (∃ fg', FG_eval m [c0, c1, c2, c3] N fg z = some fg' ∧ fg'.length = fg.length) ∧
    (N = 2 →
      (∀ s, forLoop 1 N (dynamicsBody m [c0, c1, c2, c3] N z) s
        = dynamicsBody m [c0, c1, c2, c3] N z 1 s) ∧
      (∀ s, forLoop 0 (szSub N 2) (smoothBody N z) s = some s) ∧
      ∃ fg', FG_eval m [c0, c1, c2, c3] N fg z = some fg' ∧
        fg'[0]? = some
          (1000 * (z.getD (cte_address N) 0 - 0) ^ 2
            + 1000 * (z.getD (epsi_address N) 0 - 0) ^ 2
            + (z.getD (v_address N) 0 - 100) ^ 2
            + (1000 * (z.getD (cte_address N + 1) 0 - 0) ^ 2
              + 1000 * (z.getD (epsi_address N + 1) 0 - 0) ^ 2
              + (z.getD (v_address N + 1) 0 - 100) ^ 2)
            + (50 * z.getD (delta_address N) 0 ^ 2 + 50 * z.getD (a_address N) 0 ^ 2))) := by
  have hN1 : 1 ≤ N := by omega
  obtain ⟨fg', hrun, hl, h0, -⟩ := FG_eval_run m c0 c1 c2 c3 hN
    (by rw [n_vars_eq_spec hN1]; exact hz) hfg
  refine ⟨⟨fg', hrun, by rw [hl, hfg]⟩, ?_⟩
  rintro rfl
  refine ⟨?_, ?_, fg', hrun, ?_⟩
  · intro s
    simp only [forLoop, forFrom]
    cases dynamicsBody m [c0, c1, c2, c3] 2 z 1 s <;> rfl
  · intro s
    simp [forLoop, forFrom, szSub]
  · rw [h0]
    simp only [costValue, Finset.sum_range_succ, Finset.sum_range_zero, ref_cte, ref_epsi, ref_v,
      Nat.add_zero, zero_add, add_zero, Nat.sub_self, Finset.range_zero, Finset.sum_empty]

/-- C10 at `N = 2` on the vector `0, 1, .., 13`: the run succeeds and the cost
is `1000 (64 + 81) + 1000 (100 + 121) + 94² + 93² + 50 (144 + 169)`. -/
theorem C10_index_safety_witness :
    ∃ fg' : List ℚ, FG_eval ⟨fun _ => 1, fun _ => 0, fun _ => 0, 3⟩ [1, 0, 0, 0] 2
        (List.replicate 13 7) [0, 1, 2, 3, 4, 5, 6, 7, 8, 9, 10, 11, 12, 13] = some fg' ∧
      fg'[0]? = some 399135 := by
  obtain ⟨-, h⟩ := C10_index_safety (⟨fun _ => 1, fun _ => 0, fun _ => 0, 3⟩ : MathFns ℚ)
    1 0 0 0 2 [0, 1, 2, 3, 4, 5, 6, 7, 8, 9, 10, 11, 12, 13] (List.replicate 13 7)
    (by decide) (by simp) (by simp)
  obtain ⟨-, -, fg', hrun, h0⟩ := h rfl
  refine ⟨fg', hrun, ?_⟩
  rw [h0]
  have ea : a_address 2 = 13 := by decide
  simp [cte_address, epsi_address, v_address, delta_address, ea]
  norm_num

/-- C11 (zero-effort check): with `N = 10`, coeffs `(0, 0, 0, 0)` and the
state at reference `(0, 0, 0, 100, 0, 0)`, the decision vector with all
actuators 0, `x_t = 100 * 0.1 * t`, `v_t = 100` and every other state entry 0
satisfies every constraint bound built by `MPC::Solve` and has cost 0; every
decision vector that satisfies the constraints and attains the minimal cost
has all steering and acceleration entries 0, so the steering and acceleration
commands `MPC::Solve` returns for it are both 0. The library functions enter
through `cos 0 = 1`, `sin 0 = 0`, `atan 0 = 0`. -/
theorem C11_zero_effort (m : MathFns α) (junk : Nat → Nat → α) (fg : List α)
    (hcos : m.cos 0 = 1) (hsin : m.sin 0 = 0) (hatan : m.atan 0 = 0)
    (hfg : fg.length = 1 + 6 * 10) :
    ((zeroEffortVec 10 : List α).length = 6 * 10 + 2 * (10 - 1) ∧
      (∀ t, t < 10 →
        (zeroEffortVec 10 : List α).getD (x_address 10 + t) 0 = 100 * (1 / 10) * (t : α) ∧
        (zeroEffortVec 10 : List α).getD (y_address 10 + t) 0 = 0 ∧
        (zeroEffortVec 10 : List α).getD (psi_address 10 + t) 0 = 0 ∧
        (zeroEffortVec 10 : List α).getD (v_address 10 + t) 0 = 100 ∧
        (zeroEffortVec 10 : List α).getD (cte_address 10 + t) 0 = 0 ∧
        (zeroEffortVec 10 : List α).getD (epsi_address 10 + t) 0 = 0) ∧
      (∀ t, t < 9 →
        (zeroEffortVec 10 : List α).getD (delta_address 10 + t) 0 = 0 ∧
        (zeroEffortVec 10 : List α).getD (a_address 10 + t) 0 = 0)) ∧
    satisfiesConstraints m junk 10 [0, 0, 0, 100, 0, 0] [0, 0, 0, 0] fg (zeroEffortVec 10) ∧
    costOf m [0, 0, 0, 0] 10 fg (zeroEffortVec 10) = some 0 ∧
    (∀ z, isMinimizer m junk 10 [0, 0, 0, 100, 0, 0] [0, 0, 0, 0] fg z →
      ∀ t, t < 9 → z.getD (delta_address 10 + t) 0 = 0 ∧ z.getD (a_address 10 + t) 0 = 0) ∧
    (∀ solver : SolveArgs α → SolveResult α,
      (∀ args, isMinimizer m junk 10 [0, 0, 0, 100, 0, 0] [0, 0, 0, 0] fg (solver args).x) →
      ∃ r, Solve m solver junk 10 [0, 0, 0, 100, 0, 0] [0, 0, 0, 0] = some r ∧
        r[0]? = some 0 ∧ r[1]? = some 0) := by
  have h10 : 2 ≤ 10 := by decide
  have h1 : 1 ≤ 10 := by decide
  have hfeas := zeroEffortVec_feasible m junk h10 hfg hcos hsin hatan
  have hcost0 : costOf m [0, 0, 0, 0] 10 fg (zeroEffortVec 10) = some 0 := by
    rw [costOf_eq m 0 0 0 0 h10 (zeroEffortVec_length 10) hfg, zeroEffortVec_cost h1]
  have hmin : ∀ z, isMinimizer m junk 10 [0, 0, 0, 100, 0, 0] [0, 0, 0, 0] fg z →
      ∀ t, t < 9 → z.getD (delta_address 10 + t) 0 = 0 ∧ z.getD (a_address 10 + t) 0 = 0 := by
    rintro z ⟨hz, -, hle⟩
    have hc := hle (zeroEffortVec 10) (zeroEffortVec_length 10) hfeas _ _
      (costOf_eq m 0 0 0 0 h10 hz hfg) hcost0
    have hz0 : costValue 10 z = 0 := le_antisymm hc (costValue_nonneg 10 z)
    exact ((costValue_eq_zero_iff 10 z).1 hz0).2
  refine ⟨⟨?_, ?_, ?_⟩, hfeas, hcost0, hmin, ?_⟩
  · rw [zeroEffortVec_length]; decide
  · intro t ht
    have h := zeroEffortVec_state (α := α) h1 t ht
    simp only [stateAt, StateAt.mk.injEq] at h
    exact h
  · intro t ht
    exact zeroEffortVec_actuators h1 t ht
  · intro solver hsolver
    obtain ⟨xi, xl, xu, gl, gu, hargs, -⟩ :=
      Solve_args_run m junk h1 0 0 0 100 0 0 [0, 0, 0, 0]
    have hmz := hsolver ⟨xi, xl, xu, gl, gu, fun fg z => FG_eval m [0, 0, 0, 0] 10 fg z⟩
    obtain ⟨r, hr, -, r0, r1, -⟩ := Solve_result_run h10 _ hmz.1
    obtain ⟨d0, a0⟩ := hmin _ hmz 0 (by decide)
    rw [Nat.add_zero] at d0 a0
    rw [d0] at r0
    rw [a0] at r1
    refine ⟨r, ?_, r0, r1⟩
    simp only [Solve, hargs, Option.bind_eq_bind, Option.some_bind, hr]

/-- C11 with the library functions `cos = 1`, `sin = 0`, `atan = 0` on the
rationals: the zero-effort vector satisfies the constraints and has cost 0. -/
theorem C11_zero_effort_witness :
    satisfiesConstraints (⟨fun _ => 1, fun _ => 0, fun _ => 0, 3⟩ : MathFns ℚ) (fun _ _ => 7) 10
        [0, 0, 0, 100, 0, 0] [0, 0, 0, 0] (List.replicate 61 7) (zeroEffortVec 10) ∧
      costOf (⟨fun _ => 1, fun _ => 0, fun _ => 0, 3⟩ : MathFns ℚ) [0, 0, 0, 0] 10
        (List.replicate 61 7) (zeroEffortVec 10) = some 0 := by
  obtain ⟨-, h1, h2, -⟩ := C11_zero_effort
    (⟨fun _ => 1, fun _ => 0, fun _ => 0, 3⟩ : MathFns ℚ) (fun _ _ => 7) (List.replicate 61 7)
    rfl rfl rfl (by simp)
  exact ⟨h1, h2⟩

/-- C12: for every `N ≥ 3`, state and coeffs, and every solver result vector
that satisfies the constraint bounds built by `MPC::Solve`, the first preview
point returned by `MPC::Solve` (elements 2 and 3) is
`(x + v cos(psi) dt, y + v sin(psi) dt)`, computed from the input state alone.
In the end-to-end scenario, state `(0, 0, 0, 10, 1, 0.1)` and coeffs
`(1, 0, 0, 0)`, with `cos 0 = 1`, the first preview `x` is 1, strictly greater
than the initial `x = 0`. -/
theorem C12_first_preview_point (m : MathFns α) (solver : SolveArgs α → SolveResult α)
    (junk : Nat → Nat → α) (N : Nat) (x y psi v cte epsi c0 c1 c2 c3 : α) (fg : List α)
    (hN : 3 ≤ N) (hfg : fg.length = 1 + 6 * N)
    (hsol : ∀ args,
      Solve_args m junk N [x, y, psi, v, cte, epsi] [c0, c1, c2, c3] = some args →
      (solver args).x.length = 6 * N + 2 * (N - 1) ∧
        satisfiesConstraints m junk N [x, y, psi, v, cte, epsi] [c0, c1, c2, c3] fg
          (solver args).x) :
    ∃ r, Solve m solver junk N [x, y, psi, v, cte, epsi] [c0, c1, c2, c3] = some r ∧
      r[2]? = some (x + v * m.cos psi * (1 / 10)) ∧
      r[3]? = some (y + v * m.sin psi * (1 / 10)) ∧
      (x = 0 ∧ y = 0 ∧ psi = 0 ∧ v = 10 ∧ cte = 1 ∧ epsi = 1 / 10 ∧
          c0 = 1 ∧ c1 = 0 ∧ c2 = 0 ∧ c3 = 0 ∧ m.cos 0 = 1 →
        r[2]? = some 1 ∧ x < 1) := by
  have hN1 : 1 ≤ N := by omega
  have hN2 : 2 ≤ N := by omega
  obtain ⟨xi, xl, xu, gl, gu, hargs, -⟩ :=
    Solve_args_run m junk hN1 x y psi v cte epsi [c0, c1, c2, c3]
  obtain ⟨hlen, hfeas⟩ := hsol _ hargs
  have hx' : (solver ⟨xi, xl, xu, gl, gu, fun fg z => FG_eval m [c0, c1, c2, c3] N fg z⟩).x.length
      = n_vars N := by rw [n_vars_eq_spec hN1]; exact hlen
  obtain ⟨r, hr, -, -, -, hp⟩ := Solve_result_run hN2 _ hx'
  obtain ⟨p2, p3⟩ := hp 0 (by omega)
  rw [satisfiesConstraints_iff_res m junk x y psi v cte epsi c0 c1 c2 c3 hN2 hx' hfg] at hfeas
  obtain ⟨⟨e0, e1, e2, e3, -, -⟩, hdyn⟩ := hfeas
  obtain ⟨d0, d1, -⟩ := hdyn 1 (le_refl 1) (by omega)
  have hdt : (dt : α) = 1 / 10 := by norm_num [dt]
  simp only [resX, resY, stateAt, Nat.sub_self, Nat.add_zero, e0, e1, e2, e3, hdt,
    sub_eq_zero] at d0 d1
  simp only [Nat.mul_zero, Nat.add_zero] at p2 p3
  rw [d0] at p2
  rw [d1] at p3
  have hsolve : Solve m solver junk N [x, y, psi, v, cte, epsi] [c0, c1, c2, c3] = some r := by
    simp only [Solve, hargs, Option.bind_eq_bind, Option.some_bind, hr]
  refine ⟨r, hsolve, p2, p3, ?_⟩
  rintro ⟨rfl, -, rfl, rfl, -, -, -, -, -, -, hcos⟩
  rw [p2, hcos]
  constructor
  · norm_num
  · norm_num

/-- C12 in the end-to-end scenario at `N = 3`, with `cos = 1`, `sin = 0`,
`atan = 0` and a solver that returns the vector which follows the model with
both actuators at 0: the first preview point is `(1, 0)`. -/
theorem C12_first_preview_point_witness :
    ∃ r : List ℚ, Solve ⟨fun _ => 1, fun _ => 0, fun _ => 0, 3⟩
        (fun _ => ⟨Status.success,
          [0, 1, 2, 0, 0, 0, 0, 0, 0, 10, 10, 10, 1, 1, 1, 1 / 10, 0, 0, 0, 0, 0, 0], 0⟩)
        (fun _ _ => 7) 3 [0, 0, 0, 10, 1, 1 / 10] [1, 0, 0, 0] = some r ∧
      r[2]? = some 1 ∧ r[3]? = some 0 := by
  obtain ⟨r, hr, h2, h3, -⟩ := C12_first_preview_point
    (⟨fun _ => 1, fun _ => 0, fun _ => 0, 3⟩ : MathFns ℚ)
    (fun _ => ⟨Status.success,
      [0, 1, 2, 0, 0, 0, 0, 0, 0, 10, 10, 10, 1, 1, 1, 1 / 10, 0, 0, 0, 0, 0, 0], 0⟩)
    (fun _ _ => 7) 3 0 0 0 10 1 (1 / 10) 1 0 0 0 (List.replicate 19 7) (by decide) (by simp)
    (by
      intro args _
      refine ⟨by simp, ?_⟩
      have hz : ([0, 1, 2, 0, 0, 0, 0, 0, 0, 10, 10, 10, 1, 1, 1, 1 / 10, 0, 0, 0, 0, 0, 0] :
          List ℚ).length = n_vars 3 := by decide
      have hfg : (List.replicate 19 (7 : ℚ)).length = 1 + 6 * 3 := by simp
      rw [satisfiesConstraints_iff_res _ _ _ _ _ _ _ _ _ _ _ _ (by decide) hz hfg]
      have ea : a_address 3 = 20 := by decide
      refine ⟨by simp [x_address, y_address, psi_address, v_address, cte_address,
        epsi_address], ?_⟩
      intro t ht1 ht
      interval_cases t <;>
        simp [resX, resY, resPsi, resV, resCte, resEpsi, stateAt, f0Val, psides0Val, dt, Lf,
          x_address, y_address, psi_address, v_address, cte_address, epsi_address,
          delta_address, ea] <;>
        norm_num)
  refine ⟨r, hr, ?_, ?_⟩
  · rw [h2]; norm_num
  · rw [h3]; norm_num

/-- C13 fails on the code: at `N = 10`, for the state `(0, 0, 0, 10, 1, 1/10)`,
the initial guess handed to the solver holds 0 at `v_address`, `cte_address`
and `epsi_address`, not the measured `10`, `1` and `1/10`. -/
theorem C13_initial_guess_not_state :
    ∃ args, Solve_args ⟨id, id, id, 3⟩ (fun _ _ => 7) 10 [0, 0, 0, 10, 1, (1 / 10 : ℚ)]
        [1, 0, 0, 0] = some args ∧
      args.xi[v_address 10]? = some 0 ∧ args.xi[cte_address 10]? = some 0 ∧
      args.xi[epsi_address 10]? = some 0 ∧
      args.xi[v_address 10]? ≠ some 10 ∧ args.xi[cte_address 10]? ≠ some 1 ∧
      args.xi[epsi_address 10]? ≠ some (1 / 10) := by
  obtain ⟨args, h, -, hall⟩ := Solve_args_xi (⟨id, id, id, 3⟩ : MathFns ℚ) (fun _ _ => 7)
    (show 1 ≤ 10 by decide) 0 0 0 10 1 (1 / 10) [1, 0, 0, 0]
  have hv := hall (v_address 10) (by decide)
  have hc := hall (cte_address 10) (by decide)
  have he := hall (epsi_address 10) (by decide)
  refine ⟨args, h, hv, hc, he, ?_, ?_, ?_⟩
  · rw [hv]; norm_num
  · rw [hc]; norm_num
  · rw [he]; norm_num

/-- C14: for every `N ≥ 2` and every input state and coeffs, the initial guess
handed to the solver by `MPC::Solve` is a vector of length `6N + 2(N-1)` whose
entries are all 0. -/
theorem C14_initial_guess_zero (m : MathFns α) (junk : Nat → Nat → α) (N : Nat)
    (x y psi v cte epsi : α) (coeffs : List α) (hN : 2 ≤ N) :
    ∃ args, Solve_args m junk N [x, y, psi, v, cte, epsi] coeffs = some args ∧
      args.xi.length = 6 * N + 2 * (N - 1) ∧
      (∀ j, j < 6 * N + 2 * (N - 1) → args.xi[j]? = some 0) ∧
      args.xi = List.replicate (6 * N + 2 * (N - 1)) 0 := by
  have hN1 : 1 ≤ N := by omega
  obtain ⟨args, h, hl, hall⟩ := Solve_args_xi m junk hN1 x y psi v cte epsi coeffs
  rw [n_vars_eq_spec hN1] at hl hall
  refine ⟨args, h, hl, hall, ?_⟩
  apply List.ext_getElem?
  intro j
  by_cases hj : j < 6 * N + 2 * (N - 1)
  · rw [hall j hj, List.getElem?_replicate, if_pos hj]
  · rw [List.getElem?_eq_none (by omega), List.getElem?_eq_none (by simp; omega)]

/-- C14 at `N = 2` for the state `(0, 0, 0, 10, 1, 1/10)`. -/
theorem C14_initial_guess_zero_witness :
    ∃ args, Solve_args ⟨id, id, id, 3⟩ (fun _ _ => 7) 2 [0, 0, 0, 10, 1, (1 / 10 : ℚ)]
        [1, 0, 0, 0] = some args ∧
      args.xi = [0, 0, 0, 0, 0, 0, 0, 0, 0, 0, 0, 0, 0, 0] := by
  obtain ⟨args, h, -, -, he⟩ := C14_initial_guess_zero (⟨id, id, id, 3⟩ : MathFns ℚ)
    (fun _ _ => 7) 2 0 0 0 10 1 (1 / 10) [1, 0, 0, 0] (by decide)
  exact ⟨args, h, by rw [he]; rfl⟩

/-- C15, as stated, fails for a vector whose entry at `cte_address` is not the
`cte` of the first state. At `N = 2`, with `cos = 1`, `sin = 0`, `atan = 0`,
coeffs `(1, 0, 0, 0)`, `s = (0, 0, 0, 10, 1, 1/10)` and
`s' = (0, 0, 0, 10, 2, 1/10)`: the vector `z` with `cte_0 = 5` does not satisfy
the constraints for `s`, `z'` (its entry at `cte_address` replaced by 2)
satisfies them for `s'`, and the costs differ by `-21000`, not by
`1000 (2² - 1²) = 3000`. -/
theorem C15_cte_shift_counterexample :
    ¬ satisfiesConstraints (⟨fun _ => 1, fun _ => 0, fun _ => 0, 3⟩ : MathFns ℚ) (fun _ _ => 7) 2
        [0, 0, 0, 10, 1, 1 / 10] [1, 0, 0, 0] (List.replicate 13 7)
        [0, 1, 0, 0, 0, 0, 10, 10, 5, 1, 1 / 10, 0, 0, 0] ∧
    satisfiesConstraints (⟨fun _ => 1, fun _ => 0, fun _ => 0, 3⟩ : MathFns ℚ) (fun _ _ => 7) 2
        [0, 0, 0, 10, 2, 1 / 10] [1, 0, 0, 0] (List.replicate 13 7)
        ([0, 1, 0, 0, 0, 0, 10, 10, 5, 1, 1 / 10, 0, 0, 0].set (cte_address 2) 2) ∧
    costOf (⟨fun _ => 1, fun _ => 0, fun _ => 0, 3⟩ : MathFns ℚ) [1, 0, 0, 0] 2
        (List.replicate 13 7) [0, 1, 0, 0, 0, 0, 10, 10, 5, 1, 1 / 10, 0, 0, 0] = some 42210 ∧
    costOf (⟨fun _ => 1, fun _ => 0, fun _ => 0, 3⟩ : MathFns ℚ) [1, 0, 0, 0] 2
        (List.replicate 13 7)
        ([0, 1, 0, 0, 0, 0, 10, 10, 5, 1, 1 / 10, 0, 0, 0].set (cte_address 2) 2)
      = some 21210 ∧
    (21210 - 42210 : ℚ) ≠ 1000 * (2 ^ 2 - 1 ^ 2) := by
  have hz : ([0, 1, 0, 0, 0, 0, 10, 10, 5, 1, 1 / 10, 0, 0, 0] : List ℚ).length = n_vars 2 := by
    decide
  have hz' : (([0, 1, 0, 0, 0, 0, 10, 10, 5, 1, 1 / 10, 0, 0, 0] : List ℚ).set
      (cte_address 2) 2).length = n_vars 2 := by decide
  have hfg : (List.replicate 13 (7 : ℚ)).length = 1 + 6 * 2 := by simp
  have ea : a_address 2 = 13 := by decide
  refine ⟨?_, ?_, ?_, ?_, by norm_num⟩
  · rw [satisfiesConstraints_iff_res _ _ _ _ _ _ _ _ _ _ _ _ (by decide) hz hfg]
    rintro ⟨⟨-, -, -, -, h, -⟩, -⟩
    simp [cte_address] at h
  · rw [satisfiesConstraints_iff_res _ _ _ _ _ _ _ _ _ _ _ _ (by decide) hz' hfg]
    refine ⟨by simp [x_address, y_address, psi_address, v_address, cte_address,
      epsi_address], ?_⟩
    intro t ht1 ht
    interval_cases t
    simp [resX, resY, resPsi, resV, resCte, resEpsi, stateAt, f0Val, psides0Val, dt, Lf,
      x_address, y_address, psi_address, v_address, cte_address, epsi_address,
      delta_address, ea]
    norm_num
  · rw [costOf_eq _ _ _ _ _ (by decide) hz hfg]
    simp [costValue, Finset.sum_range_succ, ref_cte, ref_epsi, ref_v, cte_address, epsi_address,
      v_address, delta_address, ea]
    norm_num
  · rw [costOf_eq _ _ _ _ _ (by decide) hz' hfg]
    simp [costValue, Finset.sum_range_succ, ref_cte, ref_epsi, ref_v, cte_address, epsi_address,
      v_address, delta_address, ea]
    norm_num

/-- C15, amended: the measured cross-track error does not influence the
optimal command. For every `N ≥ 2`, coeffs, two states `s`, `s'` that differ
only in the `cte` component, and every decision vector `z` whose entry at
`cte_address` is the `cte` of `s` (as it is whenever `z` satisfies the
constraints for `s`): `z` satisfies the constraints for `s` if and only if
`z'` (`z` with only the entry at `cte_address` replaced by the `cte` of `s'`)
satisfies them for `s'`; `cost(z') - cost(z) = 1000 (cte'² - cte²)`; and if
`z` is a minimizer for `s` then `z'`, which has the same actuator entries, is
a minimizer for `s'`. -/
theorem C15_cte_shift (m : MathFns α) (junk : Nat → Nat → α) (N : Nat)
    (x y psi v cte cte' epsi c0 c1 c2 c3 : α) (z fg : List α)
    (hN : 2 ≤ N) (hz : z.length = 6 * N + 2 * (N - 1)) (hfg : fg.length = 1 + 6 * N)
    (hcte : z.getD (cte_address N) 0 = cte) :
    (satisfiesConstraints m junk N [x, y, psi, v, cte, epsi] [c0, c1, c2, c3] fg z ↔
      satisfiesConstraints m junk N [x, y, psi, v, cte', epsi] [c0, c1, c2, c3] fg
        (z.set (cte_address N) cte')) ∧
    (∃ cz cz', costOf m [c0, c1, c2, c3] N fg z = some cz ∧
      costOf m [c0, c1, c2, c3] N fg (z.set (cte_address N) cte') = some cz' ∧
      cz' - cz = 1000 * (cte' ^ 2 - cte ^ 2)) ∧
    ((z.set (cte_address N) cte').length = z.length ∧
      (z.set (cte_address N) cte').getD (cte_address N) 0 = cte' ∧
      (∀ j, j ≠ cte_address N → (z.set (cte_address N) cte').getD j 0 = z.getD j 0) ∧
      ∀ t, t < N - 1 →
        (z.set (cte_address N) cte').getD (delta_address N + t) 0
          = z.getD (delta_address N + t) 0 ∧
        (z.set (cte_address N) cte').getD (a_address N + t) 0
          = z.getD (a_address N + t) 0) ∧
    (isMinimizer m junk N [x, y, psi, v, cte, epsi] [c0, c1, c2, c3] fg z →
      isMinimizer m junk N [x, y, psi, v, cte', epsi] [c0, c1, c2, c3] fg
        (z.set (cte_address N) cte')) := by
  have hN1 : 1 ≤ N := by omega
  have hn := n_vars_eq hN1
  have ha := a_address_eq hN1
  have hzn : z.length = n_vars N := by rw [n_vars_eq_spec hN1]; exact hz
  have hz' : (z.set (cte_address N) cte').length = n_vars N := by
    rw [List.length_set]; exact hzn
  have hlt : cte_address N < z.length := by rw [hzn, hn]; simp only [cte_address]; omega
  have hback : (z.set (cte_address N) cte').set (cte_address N) cte = z := by
    rw [← hcte]; exact set_set_getD cte' hlt
  have hfwd : satisfiesConstraints m junk N [x, y, psi, v, cte, epsi] [c0, c1, c2, c3] fg z →
      satisfiesConstraints m junk N [x, y, psi, v, cte', epsi] [c0, c1, c2, c3] fg
        (z.set (cte_address N) cte') :=
    satisfiesConstraints_set_cte m junk x y psi v cte cte' epsi c0 c1 c2 c3 hN hzn hfg
  have hcost : costValue N (z.set (cte_address N) cte')
      = costValue N z + 1000 * (cte' ^ 2 - cte ^ 2) := by
    rw [costValue_set_cte hN1 hzn, hcte]
  refine ⟨⟨hfwd, ?_⟩, ⟨costValue N z, costValue N (z.set (cte_address N) cte'),
    costOf_eq m c0 c1 c2 c3 hN hzn hfg, costOf_eq m c0 c1 c2 c3 hN hz' hfg, ?_⟩,
    ⟨List.length_set _ _ _, getD_set_self _ hlt, fun j hj => getD_set_ne _ (Ne.symm hj), ?_⟩, ?_⟩
  · intro h
    have h2 := satisfiesConstraints_set_cte m junk x y psi v cte' cte epsi c0 c1 c2 c3 hN hz'
      hfg h
    rw [hback] at h2
    exact h2
  · rw [hcost]; ring
  · intro t ht
    exact ⟨getD_set_ne _ (by simp only [cte_address, delta_address]; omega),
      getD_set_ne _ (by rw [ha]; simp only [cte_address]; omega)⟩
  · rintro ⟨-, hfeas, hmin⟩
    refine ⟨hz', hfwd hfeas, ?_⟩
    intro w hw hwfeas cz' cw hcz' hcw
    have hwlt : cte_address N < w.length := by rw [hw, hn]; simp only [cte_address]; omega
    have hw2 : (w.set (cte_address N) cte).length = n_vars N := by
      rw [List.length_set]; exact hw
    have hwback := satisfiesConstraints_set_cte m junk x y psi v cte' cte epsi c0 c1 c2 c3 hN
      hw hfg hwfeas
    have hwcte : w.getD (cte_address N) 0 = cte' := by
      rw [satisfiesConstraints_iff_res m junk x y psi v cte' epsi c0 c1 c2 c3 hN hw hfg]
        at hwfeas
      exact hwfeas.1.2.2.2.2.1
    have hle := hmin _ hw2 hwback _ _ (costOf_eq m c0 c1 c2 c3 hN hzn hfg)
      (costOf_eq m c0 c1 c2 c3 hN hw2 hfg)
    rw [costValue_set_cte hN1 hw, hwcte] at hle
    rw [costOf_eq m c0 c1 c2 c3 hN hz' hfg] at hcz'
    rw [costOf_eq m c0 c1 c2 c3 hN hw hfg] at hcw
    obtain rfl := Option.some.inj hcz'
    obtain rfl := Option.some.inj hcw
    rw [hcost]
    linarith

/-- C15 amended, at `N = 2` with `cos = 1`, `sin = 0`, `atan = 0`: the vector
that follows the model from `(0, 0, 0, 10, 1, 1/10)` and the same vector with
`cte_0 = 2`, for the state `(0, 0, 0, 10, 2, 1/10)`. -/
theorem C15_cte_shift_witness :
    (satisfiesConstraints (⟨fun _ => 1, fun _ => 0, fun _ => 0, 3⟩ : MathFns ℚ) (fun _ _ => 7) 2
        [0, 0, 0, 10, 1, 1 / 10] [1, 0, 0, 0] (List.replicate 13 7)
        [0, 1, 0, 0, 0, 0, 10, 10, 1, 1, 1 / 10, 0, 0, 0] ↔
      satisfiesConstraints (⟨fun _ => 1, fun _ => 0, fun _ => 0, 3⟩ : MathFns ℚ) (fun _ _ => 7) 2
        [0, 0, 0, 10, 2, 1 / 10] [1, 0, 0, 0] (List.replicate 13 7)
        ([0, 1, 0, 0, 0, 0, 10, 10, 1, 1, 1 / 10, 0, 0, 0].set (cte_address 2) 2)) ∧
    ∃ cz cz' : ℚ,
      costOf (⟨fun _ => 1, fun _ => 0, fun _ => 0, 3⟩ : MathFns ℚ) [1, 0, 0, 0] 2
        (List.replicate 13 7) [0, 1, 0, 0, 0, 0, 10, 10, 1, 1, 1 / 10, 0, 0, 0] = some cz ∧
      costOf (⟨fun _ => 1, fun _ => 0, fun _ => 0, 3⟩ : MathFns ℚ) [1, 0, 0, 0] 2
        (List.replicate 13 7)
        ([0, 1, 0, 0, 0, 0, 10, 10, 1, 1, 1 / 10, 0, 0, 0].set (cte_address 2) 2) = some cz' ∧
      cz' - cz = 1000 * (2 ^ 2 - 1 ^ 2) := by
  obtain ⟨h1, h2, -⟩ := C15_cte_shift (⟨fun _ => 1, fun _ => 0, fun _ => 0, 3⟩ : MathFns ℚ)
    (fun _ _ => 7) 2 0 0 0 10 1 2 (1 / 10) 1 0 0 0
    [0, 1, 0, 0, 0, 0, 10, 10, 1, 1, 1 / 10, 0, 0, 0] (List.replicate 13 7)
    (by decide) (by decide) (by simp) (by simp [cte_address])
  exact ⟨h1, h2⟩

/-- C16: for every `N ≥ 2` and every decision vector `z`, the cost `fg[0]`
computed by `FG_eval::operator()` is non-negative, and it is 0 if and only if
every `cte_t` and `epsi_t` is 0, every `v_t` is 100 (`t` in `0..N-1`), and
every steering and acceleration entry is 0. -/
theorem C16_cost_nonneg_zero_iff (m : MathFns α) (c0 c1 c2 c3 : α) (N : Nat) (z fg : List α)
    (hN : 2 ≤ N) (hz : z.length = 6 * N + 2 * (N - 1)) (hfg : fg.length = 1 + 6 * N) :
    ∃ fg' cost, FG_eval m [c0, c1, c2, c3] N fg z = some fg' ∧ fg'[0]? = some cost ∧
      0 ≤ cost ∧
      (cost = 0 ↔
        (∀ t, t < N → z.getD (cte_address N + t) 0 = 0 ∧ z.getD (epsi_address N + t) 0 = 0 ∧
          z.getD (v_address N + t) 0 = 100) ∧
        (∀ t, t < N - 1 →
          z.getD (delta_address N + t) 0 = 0 ∧ z.getD (a_address N + t) 0 = 0)) := by
  have hN1 : 1 ≤ N := by omega
  obtain ⟨fg', hrun, -, h0, -⟩ := FG_eval_run m c0 c1 c2 c3 hN
    (by rw [n_vars_eq_spec hN1]; exact hz) hfg
  exact ⟨fg', costValue N z, hrun, h0, costValue_nonneg N z, costValue_eq_zero_iff N z⟩

/-- C16 at `N = 2`: the vector with `v = (100, 100)` and every other entry 0
has cost 0. -/
theorem C16_cost_nonneg_zero_iff_witness :
    ∃ fg' : List ℚ, FG_eval ⟨fun _ => 1, fun _ => 0, fun _ => 0, 3⟩ [1, 0, 0, 0] 2
        (List.replicate 13 7) [0, 0, 0, 0, 0, 0, 100, 100, 0, 0, 0, 0, 0, 0] = some fg' ∧
      fg'[0]? = some 0 := by
  obtain ⟨fg', cost, hrun, h0, -, hiff⟩ := C16_cost_nonneg_zero_iff
    (⟨fun _ => 1, fun _ => 0, fun _ => 0, 3⟩ : MathFns ℚ) 1 0 0 0 2
    [0, 0, 0, 0, 0, 0, 100, 100, 0, 0, 0, 0, 0, 0] (List.replicate 13 7)
    (by decide) (by simp) (by simp)
  have hc : cost = 0 := by
    rw [hiff]
    have ea : a_address 2 = 13 := by decide
    constructor
    · intro t ht
      interval_cases t <;> simp [cte_address, epsi_address, v_address]
    · intro t ht
      interval_cases t
      simp [delta_address, ea]
  rw [hc] at h0
  exact ⟨fg', hrun, h0⟩

/-- C17, as stated, fails in one of the indices it lists: with `N = 1` the
reads of the preview loop at `i = 0`, `x_address + 1 = 1` and
`y_address + 1 = 2`, are below `n_vars = 6`, and the loop body succeeds
there. -/
theorem C17_preview_read_in_range_counterexample :
    n_vars 1 = 6 ∧ x_address 1 + 0 + 1 = 1 ∧ x_address 1 + 0 + 1 < n_vars 1 ∧
    y_address 1 + 0 + 1 < n_vars 1 ∧
    previewBody 1 [10, 11, 12, 13, 14, (15 : ℚ)] 0 [] = some [11, 12] := by
  refine ⟨by decide, by decide, by decide, by decide, ?_⟩
  rfl

/-- C17, amended: the `N ≥ 2` precondition is necessary. With `N = 1` the loop
bound `N - 2` wraps to `2^64 - 1`, so the actuator-smoothness loop of
`FG_eval::operator()` and the preview loop of `MPC::Solve` are entered at
`i = 0`. In the cost the first read of the smoothness loop is at index
`delta_address + 1 = 7`, not below `n_vars = 6`, and `FG_eval` fails. In
`MPC::Solve` the reads at `delta_address = a_address = 6` (lines 257-258) are
not below `n_vars = 6`, and the extraction fails; the reads of the preview
loop itself are in range for `i < 4` and out of range at `i = 4`
(`y_address + 5 = 6`). -/
theorem C17_horizon_one_out_of_range (m : MathFns α) (c0 c1 c2 c3 : α) (z fg : List α)
    (sol : SolveResult α) (hz : z.length = 6) (hfg : fg.length = 7)
    (hx : sol.x.length = 6) :
    (szSub 1 2 = 2 ^ 64 - 1 ∧ n_vars 1 = 6 ∧ delta_address 1 = 6 ∧ a_address 1 = 6) ∧
    ((∀ s, forLoop 0 (szSub 1 2) (smoothBody 1 z) s
        = (smoothBody 1 z 0 s).bind (forFrom (smoothBody 1 z) (2 ^ 64 - 2) 1)) ∧
      delta_address 1 + 0 + 1 = 7 ∧ rd z (delta_address 1 + 0 + 1) = none ∧
      (∀ s, smoothBody 1 z 0 s = none) ∧
      FG_eval m [c0, c1, c2, c3] 1 fg z = none) ∧
    (rd sol.x (delta_address 1) = none ∧ rd sol.x (a_address 1) = none ∧
      Solve_result 1 sol = none) ∧
    ((∀ r, forLoop 0 (szSub 1 2) (previewBody 1 sol.x) r
        = (previewBody 1 sol.x 0 r).bind (forFrom (previewBody 1 sol.x) (2 ^ 64 - 2) 1)) ∧
      (∀ i, i < 4 → ∀ r, ∃ r', previewBody 1 sol.x i r = some r') ∧
      y_address 1 + 4 + 1 = 6 ∧ ∀ r, previewBody 1 sol.x 4 r = none) := by
  have hs : szSub 1 2 = 2 ^ 64 - 1 := by decide
  have hk : szSub 1 2 - 0 = (2 ^ 64 - 2) + 1 := by decide
  have hn : n_vars 1 = 6 := by decide
  have ha : a_address 1 = 6 := by decide
  have r7 : rd z (delta_address 1 + 0 + 1) = none := by
    rw [rd_eq_none_iff, hz]; decide
  have hsm : ∀ s, smoothBody 1 z 0 s = none := by
    intro s
    simp only [smoothBody, r7, Option.bind_eq_bind, Option.none_bind]
  have hloop : ∀ s, forLoop 0 (szSub 1 2) (smoothBody 1 z) s
      = (smoothBody 1 z 0 s).bind (forFrom (smoothBody 1 z) (2 ^ 64 - 2) 1) := by
    intro s
    show forFrom _ (szSub 1 2 - 0) 0 s = _
    rw [hk, forFrom_succ]
  have rd6 : rd sol.x (delta_address 1) = none := by
    rw [rd_eq_none_iff, hx]; decide
  have ra6 : rd sol.x (a_address 1) = none := by
    rw [rd_eq_none_iff, hx, ha]
  refine ⟨⟨hs, hn, rfl, ha⟩, ⟨hloop, rfl, r7, hsm, ?_⟩, ⟨rd6, ra6, ?_⟩, ?_, ?_, rfl, ?_⟩
  · obtain ⟨c, g, rfl⟩ : ∃ c g, fg = c :: g := by
      cases fg with
      | nil => simp at hfg
      | cons c g => exact ⟨c, g, rfl⟩
    have e0 : wr (c :: g) 0 (0 : α) = some (0 :: g) := by simp [wr]
    have e1 := forLoop_sum (trackingBody 1 z) _ 1 (0 : α) g
      (fun i a hi => trackingBody_run (le_refl 1) (by rw [hn]; exact hz) i hi a g)
    have e2 : ∀ s : List α, forLoop 0 (szSub 1 1) (actuatorBody 1 z) s = some s :=
      fun s => rfl
    simp only [FG_eval, costPart, e0, e1, e2, hloop, hsm, Option.bind_eq_bind,
      Option.some_bind, Option.none_bind]
  · simp only [Solve_result, rd6, Option.bind_eq_bind, Option.none_bind]
  · intro r
    show forFrom _ (szSub 1 2 - 0) 0 r = _
    rw [hk, forFrom_succ]
  · intro i hi r
    exact ⟨_, previewBody_run i (by rw [hx]; simp only [x_address]; omega)
      (by rw [hx]; simp only [y_address]; omega) r⟩
  · intro r
    have h5 : x_address 1 + 4 + 1 < sol.x.length := by rw [hx]; decide
    have h6 : rd sol.x (y_address 1 + 4 + 1) = none := by
      rw [rd_eq_none_iff, hx]; decide
    simp only [previewBody, rd_of_lt h5, h6, Option.bind_eq_bind, Option.some_bind,
      Option.none_bind]

/-- C17 amended, on the vector `10, .., 15`: `FG_eval` and the extraction of
`MPC::Solve` both fail at `N = 1`. -/
theorem C17_horizon_one_out_of_range_witness :
    FG_eval (⟨id, id, id, 3⟩ : MathFns ℚ) [1, 0, 0, 0] 1 (List.replicate 7 0)
        [10, 11, 12, 13, 14, 15] = none ∧
    Solve_result 1 (⟨Status.success, [10, 11, 12, 13, 14, 15], 0⟩ : SolveResult ℚ) = none := by
  obtain ⟨-, ⟨-, -, -, -, h1⟩, ⟨-, -, h2⟩, -⟩ := C17_horizon_one_out_of_range
    (⟨id, id, id, 3⟩ : MathFns ℚ) 1 0 0 0 [10, 11, 12, 13, 14, 15] (List.replicate 7 0)
    ⟨Status.success, [10, 11, 12, 13, 14, 15], 0⟩ (by simp) (by simp) (by simp)
  exact ⟨h1, h2⟩

end Claims

end MPC
